import Mathlib

/-!
A verification development for the PROJECT SOVEREIGN execution core:
a shallow embedding in Lean 4 of the parser AST, the opcode table, and
the stack-based virtual machine, translated from
`src/project_sovereign/core/ast_nodes.py`, `core/opcodes.py`,
`core/parser.py`, `core/interpreter.py` and `vm/virtual_machine.py`,
together with theorems about the embedded definitions.

Modelling conventions:
* Python's unbounded `int` is `Int`; Python strings are `String`.
* Python lists used as stacks (`data_stack`, `control_stack`) are Lean
  lists with the TOP OF STACK AT THE HEAD (Python appends/pops at the
  end of the list; the order is reversed here, so Python
  `stack[-1]` is the head, `append` is cons, `pop` removes the head).
* Python dicts (`memory`, `registers`, `labels`) are association lists
  with first-match lookup and update-in-place-or-append insertion,
  which models dict lookup/assignment exactly.
* A routine that can raise returns its result together with an
  `Option String` carrying the raised message (`none` = no exception).
  Mutations performed before a raise persist, exactly as mutations of
  the shared Python list/dict objects persist when an exception
  propagates; the Python `program_counter` copy-back is skipped on an
  exception because `int` fields are copied, not shared.
-/

namespace Sovereign

/-- The universal runtime value carried on the data stack and in memory:
Python `int` or `str` (the only kinds the core ever produces). -/
inductive Value where
  | int (i : Int)
  | str (s : String)
deriving DecidableEq, Repr

/-- `ast_nodes.py`: operand AST leaves `Register`, `Immediate`, `Address`,
`StringLiteral`, `LabelRef`. -/
inductive Operand where
  | register (number : Int)
  | immediate (value : Int)
  | address (value : String)
  | stringLiteral (value : String)
  | labelRef (name : String)
deriving DecidableEq, Repr

/-- The character of a decimal digit value. -/
def decDigitChar : Nat → Char
  | 0 => '0' | 1 => '1' | 2 => '2' | 3 => '3' | 4 => '4'
  | 5 => '5' | 6 => '6' | 7 => '7' | 8 => '8' | 9 => '9'
  | _ => '*'

/-- Decimal digits of a natural number, least significant first. -/
def natDecimalRev (n : Nat) : List Char :=
  if h : n < 10 then [decDigitChar n]
  else decDigitChar (n % 10) :: natDecimalRev (n / 10)
termination_by n
decreasing_by exact Nat.div_lt_self (by omega) (by omega)

/-- Decimal notation of a natural number (model of Python `str`). -/
def natDecimal (n : Nat) : String := String.mk (natDecimalRev n).reverse

/-- Python `str(i)` for an integer: decimal notation with a leading `-`
for negatives. -/
def pyIntStr (i : Int) : String :=
  if i < 0 then "-" ++ natDecimal i.natAbs else natDecimal i.toNat

/-- The `__str__` methods of the five operand dataclasses in
`ast_nodes.py`. -/
def operandStr : Operand → String
  | .register n => "r" ++ pyIntStr n
  | .immediate v => "#" ++ pyIntStr v
  | .address s => "@" ++ s
  | .stringLiteral s => "\"" ++ s ++ "\""
  | .labelRef n => n

/-- `ast_nodes.py`: `Instruction` = opcode identifier plus operands. -/
structure Instruction where
  opcode : String
  operands : List Operand
deriving DecidableEq, Repr

/-- `ast_nodes.py`: `Program` = instruction list plus label→index dict. -/
structure Program where
  instructions : List Instruction
  labels : List (String × Int)
deriving DecidableEq, Repr

/-- Python dict lookup `m.get(k)` over an association list. -/
def dictGet {α β : Type} [BEq α] (m : List (α × β)) (k : α) : Option β :=
  (m.find? (fun p => p.1 == k)).map (fun p => p.2)

/-- Python dict assignment `m[k] = v`: replace the binding in place if the
key is present, otherwise append the new binding. -/
def dictSet {α β : Type} [BEq α] (m : List (α × β)) (k : α) (v : β) :
    List (α × β) :=
  if m.any (fun p => p.1 == k) then
    m.map (fun p => if p.1 == k then (k, v) else p)
  else m ++ [(k, v)]

/-- Python `str.upper()` on the ASCII identifiers used as opcode names
(characterwise uppercasing). -/
def pyUpper (s : String) : String := String.mk (s.data.map Char.toUpper)

/-- The canonical (uppercase) names of the 32 opcodes registered by
`OpCodeRegistry._register_builtin_opcodes`. -/
def opcodeNames : List String :=
  ["PUSH", "POP", "DUP", "SWAP", "ROT", "OVER", "DROP", "CLEAR",
   "ADD", "SUB", "MUL", "DIV", "AND", "OR", "XOR", "NOT",
   "JMP", "JZ", "JNZ", "CALL", "RET", "FORK", "JOIN", "HALT",
   "LOAD", "STORE", "FOPEN", "FREAD", "FWRITE", "FCLOSE", "LLMGEN", "EVOLVE"]

/-- `OpCodeRegistry.get_opcode`: dictionary lookup after `name.upper()`;
returns the canonical name of the opcode when registered. -/
def get_opcode (name : String) : Option String :=
  if pyUpper name ∈ opcodeNames then some (pyUpper name) else none

/-- The `validate_args` method of each opcode class in `opcodes.py`,
dispatched on the canonical opcode name. -/
def validate_args : String → List Value → Bool
  | "PUSH", args => args.length == 1
  | "POP", args => args.length == 0
  | "DUP", args => args.length == 0
  | "SWAP", args => args.length == 0
  | "ROT", args => args.length == 0
  | "OVER", args => args.length == 0
  | "DROP", args => args.length == 0
  | "CLEAR", args => args.length == 0
  | "ADD", args => args.length == 0
  | "SUB", args => args.length == 0
  | "MUL", args => args.length == 0
  | "DIV", args => args.length == 0
  | "AND", args => args.length == 0
  | "OR", args => args.length == 0
  | "XOR", args => args.length == 0
  | "NOT", args => args.length == 0
  | "JMP", args => args.length == 1 && (args.head?.elim false fun v => v matches Value.int _)
  | "JZ", args => args.length == 1 && (args.head?.elim false fun v => v matches Value.int _)
  | "JNZ", args => args.length == 1 && (args.head?.elim false fun v => v matches Value.int _)
  | "CALL", args => args.length == 1
  | "RET", args => args.length == 0
  | "FORK", args => args.length == 1
  | "JOIN", args => args.length == 0
  | "HALT", args => args.length == 0
  | "LOAD", args => args.length == 1
  | "STORE", args => args.length == 1
  | "FOPEN", args => args.length ≥ 1
  | "FREAD", args => args.length == 0
  | "FWRITE", args => args.length == 0
  | "FCLOSE", args => args.length == 0
  | "LLMGEN", args => args.length == 1 && (args.head?.elim false fun v => v matches Value.str _)
  | "EVOLVE", args => args.length == 1
  | _, _ => false

/-- Python `a + b` on runtime values: integer addition or string
concatenation; any other combination raises a `TypeError` (the exact
Python message is abbreviated here). -/
def pyAdd : Value → Value → Except String Value
  | .int a, .int b => .ok (.int (a + b))
  | .str a, .str b => .ok (.str (a ++ b))
  | _, _ => .error "unsupported operand type(s) for +"

/-- Python `a - b` on runtime values. -/
def pySub : Value → Value → Except String Value
  | .int a, .int b => .ok (.int (a - b))
  | _, _ => .error "unsupported operand type(s) for -"

/-- Python `a * b` on runtime values: integer product, or string
repetition when one side is a string and the other an integer
(non-positive counts give the empty string). -/
def pyMul : Value → Value → Except String Value
  | .int a, .int b => .ok (.int (a * b))
  | .str a, .int b => .ok (.str (String.join (List.replicate b.toNat a)))
  | .int a, .str b => .ok (.str (String.join (List.replicate a.toNat b)))
  | _, _ => .error "unsupported operand type(s) for *"

/-- Python `a // b` (floor division) on runtime values; the caller has
already ruled out `b == 0`. -/
def pyFloorDiv : Value → Value → Except String Value
  | .int a, .int b => .ok (.int (Int.fdiv a b))
  | _, _ => .error "unsupported operand type(s) for //"

/-- Python `a & b` on runtime values (two's-complement bitwise and). -/
def pyBitAnd : Value → Value → Except String Value
  | .int a, .int b => .ok (.int (Int.land a b))
  | _, _ => .error "unsupported operand type(s) for &"

/-- Python `a | b` on runtime values. -/
def pyBitOr : Value → Value → Except String Value
  | .int a, .int b => .ok (.int (Int.lor a b))
  | _, _ => .error "unsupported operand type(s) for |"

/-- Python `a ^ b` on runtime values. -/
def pyBitXor : Value → Value → Except String Value
  | .int a, .int b => .ok (.int (Int.xor a b))
  | _, _ => .error "unsupported operand type(s) for ^"

/-- `opcodes.ExecutionContext`: the mutable view handed to each opcode.
`registers` and `error_state` are part of the Python dataclass but no
opcode reads or writes them, so they are omitted from the view; the VM
copies the (possibly updated) `program_counter` back after a successful
dispatch. -/
structure Ctx where
  data_stack : List Value
  control_stack : List Int
  memory : List (Value × Value)
  program_counter : Int
deriving DecidableEq, Repr

/-- The result of one opcode `execute`: the context carrying all list and
dict mutations that were performed (they persist even on an exception,
because the context aliases the VM state), plus the raised message if the
opcode raised. On a raise the `program_counter` field of the returned
context is never read back by the VM. -/
def opExec : String → List Value → Ctx → Ctx × Option String
  | "PUSH", [v], c => ({ c with data_stack := v :: c.data_stack }, none)
  | "POP", _, c =>
    match c.data_stack with
    | [] => (c, some "Data stack underflow")
    | _ :: rest => ({ c with data_stack := rest }, none)
  | "DUP", _, c =>
    match c.data_stack with
    | [] => (c, some "Data stack empty")
    | x :: rest => ({ c with data_stack := x :: x :: rest }, none)
  | "SWAP", _, c =>
    match c.data_stack with
    | x :: y :: rest => ({ c with data_stack := y :: x :: rest }, none)
    | _ => (c, some "Not enough values on stack to swap")
  | "ROT", _, c =>
    match c.data_stack with
    | a :: b :: e :: rest => ({ c with data_stack := b :: e :: a :: rest }, none)
    | _ => (c, some "Not enough values on stack to rotate")
  | "OVER", _, c =>
    match c.data_stack with
    | a :: b :: rest => ({ c with data_stack := b :: a :: b :: rest }, none)
    | _ => (c, some "Not enough values on stack for over")
  | "DROP", _, c =>
    match c.data_stack with
    | [] => (c, some "Data stack empty")
    | _ :: rest => ({ c with data_stack := rest }, none)
  | "CLEAR", _, c => ({ c with data_stack := [] }, none)
  | "ADD", _, c =>
    match c.data_stack with
    | b :: a :: rest =>
      match pyAdd a b with
      | .ok v => ({ c with data_stack := v :: rest }, none)
      | .error e => ({ c with data_stack := rest }, some e)
    | _ => (c, some "Not enough values on stack for addition")
  | "SUB", _, c =>
    match c.data_stack with
    | b :: a :: rest =>
      match pySub a b with
      | .ok v => ({ c with data_stack := v :: rest }, none)
      | .error e => ({ c with data_stack := rest }, some e)
    | _ => (c, some "Not enough values on stack for subtraction")
  | "MUL", _, c =>
    match c.data_stack with
    | b :: a :: rest =>
      match pyMul a b with
      | .ok v => ({ c with data_stack := v :: rest }, none)
      | .error e => ({ c with data_stack := rest }, some e)
    | _ => (c, some "Not enough values on stack for multiplication")
  | "DIV", _, c =>
    match c.data_stack with
    | b :: a :: rest =>
      if b == Value.int 0 then ({ c with data_stack := rest }, some "Division by zero")
      else
        match pyFloorDiv a b with
        | .ok v => ({ c with data_stack := v :: rest }, none)
        | .error e => ({ c with data_stack := rest }, some e)
    | _ => (c, some "Not enough values on stack for division")
  | "AND", _, c =>
    match c.data_stack with
    | b :: a :: rest =>
      match pyBitAnd a b with
      | .ok v => ({ c with data_stack := v :: rest }, none)
      | .error e => ({ c with data_stack := rest }, some e)
    | _ => (c, some "Not enough values on stack for AND")
  | "OR", _, c =>
    match c.data_stack with
    | b :: a :: rest =>
      match pyBitOr a b with
      | .ok v => ({ c with data_stack := v :: rest }, none)
      | .error e => ({ c with data_stack := rest }, some e)
    | _ => (c, some "Not enough values on stack for OR")
  | "XOR", _, c =>
    match c.data_stack with
    | b :: a :: rest =>
      match pyBitXor a b with
      | .ok v => ({ c with data_stack := v :: rest }, none)
      | .error e => ({ c with data_stack := rest }, some e)
    | _ => (c, some "Not enough values on stack for XOR")
  | "NOT", _, c =>
    match c.data_stack with
    | [] => (c, some "Data stack empty for NOT")
    | Value.int a :: rest => ({ c with data_stack := Value.int (-a - 1) :: rest }, none)
    | _ :: rest => ({ c with data_stack := rest }, some "bad operand type for unary ~")
  | "JMP", [Value.int a], c => ({ c with program_counter := a - 1 }, none)
  | "JZ", [Value.int a], c =>
    match c.data_stack with
    | [] => (c, some "Data stack empty for JZ")
    | t :: _ =>
      if t == Value.int 0 then ({ c with program_counter := a - 1 }, none) else (c, none)
  | "JNZ", [Value.int a], c =>
    match c.data_stack with
    | [] => (c, some "Data stack empty for JNZ")
    | t :: _ =>
      if t == Value.int 0 then (c, none) else ({ c with program_counter := a - 1 }, none)
  | "CALL", [v], c =>
    -- the return-address push happens before `address - 1` is computed,
    -- so it persists even when the operand is not an integer
    let c1 := { c with control_stack := (c.program_counter + 1) :: c.control_stack }
    match v with
    | Value.int a => ({ c1 with program_counter := a - 1 }, none)
    | _ => (c1, some "unsupported operand type(s) for -")
  | "RET", _, c =>
    match c.control_stack with
    | [] => (c, some "Control stack underflow on RET")
    | r :: rest => ({ c with control_stack := rest, program_counter := r - 1 }, none)
  | "FORK", _, c => (c, none)
  | "JOIN", _, c => (c, none)
  | "HALT", _, c => (c, none)
  | "LOAD", [k], c =>
    ({ c with data_stack := (dictGet c.memory k).getD (Value.int 0) :: c.data_stack }, none)
  | "STORE", [k], c =>
    match c.data_stack with
    | [] => (c, some "Data stack empty for STORE")
    | v :: rest => ({ c with data_stack := rest, memory := dictSet c.memory k v }, none)
  | "FOPEN", _, c => (c, none)
  | "FREAD", _, c => (c, none)
  | "FWRITE", _, c => (c, none)
  | "FCLOSE", _, c => (c, none)
  | "LLMGEN", _, c => (c, none)
  | "EVOLVE", _, c => (c, none)
  | _, _, c => (c, none)

/-- `virtual_machine.VMConfig` with its default bounds. -/
structure VMConfig where
  max_stack_size : Int := 1000
  max_memory_size : Int := 10000
  max_execution_steps : Int := 100000
  max_call_depth : Int := 100
deriving DecidableEq, Repr

/-- `virtual_machine.VMState` with its default field values.
The stacks are head-is-top lists (see the file header). -/
structure VMState where
  data_stack : List Value := []
  control_stack : List Int := []
  memory : List (Value × Value) := []
  registers : List (String × Value) := []
  program_counter : Int := 0
  running : Bool := false
  error_state : Option String := none
  execution_steps : Int := 0
  memory_usage : Int := 0
deriving DecidableEq, Repr

/-- Python list indexing `l[i]`, including negative indices counting from
the end; an out-of-range index is an `IndexError` (`none` here). -/
def pyListGet {α : Type} (l : List α) (i : Int) : Option α :=
  if 0 ≤ i then l.get? i.toNat
  else if -(l.length : Int) ≤ i then l.get? ((l.length : Int) + i).toNat
  else none

/-- Operand resolution in `SovereignVM.execute_instruction`: immediates
become their integer value, registers read the register file (0 when
unset), addresses and string literals pass their string, and label
references resolve through the program's label dict or raise
`Undefined label`. -/
def resolveOperand (labels : List (String × Int)) (regs : List (String × Value)) :
    Operand → Except String Value
  | .immediate v => .ok (.int v)
  | .register n => .ok ((dictGet regs (operandStr (.register n))).getD (.int 0))
  | .address s => .ok (.str s)
  | .stringLiteral s => .ok (.str s)
  | .labelRef n =>
    match dictGet labels n with
    | some i => .ok (.int i)
    | none => .error ("Undefined label: " ++ n)

/-- Resolve an operand list left to right, stopping at the first error,
as the Python `for` loop in `execute_instruction` does. -/
def resolveArgs (labels : List (String × Int)) (regs : List (String × Value)) :
    List Operand → Except String (List Value)
  | [] => .ok []
  | o :: os =>
    match resolveOperand labels regs o with
    | .error e => .error e
    | .ok v =>
      match resolveArgs labels regs os with
      | .error e => .error e
      | .ok vs => .ok (v :: vs)

/-- `SovereignVM.execute_instruction`: look the opcode up (case
insensitively), resolve and validate the operands, run the opcode on a
context view of the state, and copy the context back.  On an exception
the data/control/memory mutations persist but the program counter is
not copied back.  (The Python message for a validation failure also
appends the argument list; the claims never inspect that suffix.) -/
def execute_instruction (labels : List (String × Int)) (st : VMState)
    (inst : Instruction) : VMState × Option String :=
  match get_opcode inst.opcode with
  | none => (st, some ("Unknown opcode: " ++ inst.opcode))
  | some op =>
    match resolveArgs labels st.registers inst.operands with
    | .error e => (st, some e)
    | .ok args =>
      if !(validate_args op args) then
        (st, some ("Invalid arguments for " ++ inst.opcode))
      else
        let c : Ctx := ⟨st.data_stack, st.control_stack, st.memory, st.program_counter⟩
        match opExec op args c with
        | (c', none) =>
          ({ st with data_stack := c'.data_stack, control_stack := c'.control_stack,
                     memory := c'.memory, program_counter := c'.program_counter }, none)
        | (c', some e) =>
          ({ st with data_stack := c'.data_stack, control_stack := c'.control_stack,
                     memory := c'.memory }, some e)

/-- `SovereignVM.handle_runtime_error`: record the message in
`error_state`, stop running, and re-raise. -/
def handle_runtime_error (st : VMState) (e : String) : VMState × Option String :=
  ({ st with error_state := some e, running := false }, some e)

/-- The outcome of one iteration of the fetch/dispatch loop in
`SovereignVM.execute`: either the loop is over (with the final state and
the re-raised error, if any) or it continues from the next state. -/
inductive IterResult where
  | done (st : VMState) (err : Option String)
  | next (st : VMState)
deriving DecidableEq, Repr

/-- One iteration of the `while` loop of `SovereignVM.execute`, including
the step-limit check (`_check_execution_limit` increments
`execution_steps` before comparing), the HALT special case (an exact,
case-sensitive comparison with `"HALT"`), the dispatch, and the
program-counter advance.  Exceptions go through
`handle_runtime_error`. -/
def execIter (cfg : VMConfig) (prog : Program) (st : VMState) : IterResult :=
  if st.running ∧ st.program_counter < (prog.instructions.length : Int) then
    let st1 := { st with execution_steps := st.execution_steps + 1 }
    if st1.execution_steps ≥ cfg.max_execution_steps then
      .done (handle_runtime_error st1
        ("Execution exceeded maximum steps of " ++ toString cfg.max_execution_steps)).1
        (handle_runtime_error st1
        ("Execution exceeded maximum steps of " ++ toString cfg.max_execution_steps)).2
    else
      match pyListGet prog.instructions st1.program_counter with
      | none =>
        .done (handle_runtime_error st1 "list index out of range").1
          (handle_runtime_error st1 "list index out of range").2
      | some inst =>
        if inst.opcode == "HALT" then .done { st1 with running := false } none
        else
          match execute_instruction prog.labels st1 inst with
          | (st2, some e) => .done (handle_runtime_error st2 e).1 (handle_runtime_error st2 e).2
          | (st2, none) => .next { st2 with program_counter := st2.program_counter + 1 }
  else .done st none

/-- Iterate `execIter` with explicit fuel.  The fuel only bounds the
recursion: every continuing iteration increments `execution_steps`,
which the step-limit check bounds strictly by `max_execution_steps`, so
with the fuel supplied by `execLoop` the `0` case is unreachable
(`execLoopAux_congr` below makes this precise). -/
def execLoopAux (cfg : VMConfig) (prog : Program) : Nat → VMState → VMState × Option String
  | 0, st => (st, some "loop fuel exhausted")
  | f + 1, st =>
    match execIter cfg prog st with
    | .done s e => (s, e)
    | .next s => execLoopAux cfg prog f s

/-- The `while` loop of `SovereignVM.execute`, expressed as iterated
`execIter`.  The Python loop terminates because of the step-limit check;
the supplied fuel is one more than the remaining step budget and is
never exhausted. -/
def execLoop (cfg : VMConfig) (prog : Program) (st : VMState) : VMState × Option String :=
  execLoopAux cfg prog ((cfg.max_execution_steps - st.execution_steps).toNat + 1) st

/-- `SovereignVM.load_program` raises on the first instruction whose
opcode is not registered; otherwise it resets the program counter, the
running flag and the error slot. -/
def load_check (prog : Program) : Option String :=
  (prog.instructions.find? (fun inst => (get_opcode inst.opcode).isNone)).map
    (fun inst => "Unknown opcode: " ++ inst.opcode)

/-- `SovereignVM.execute`: `load_program`, set `running`, run the fetch
loop.  A load failure propagates before the `try`, leaving `error_state`
empty; loop errors come back through `handle_runtime_error`. -/
def execute (cfg : VMConfig) (prog : Program) (st0 : VMState) : VMState × Option String :=
  let st := { st0 with program_counter := 0, running := false, error_state := none }
  match load_check prog with
  | some e => (st, some e)
  | none => execLoop cfg prog { st with running := true, program_counter := 0 }

/-- `SovereignVM._check_stack_overflow`: raise when the stack already
holds `max_stack_size` values. -/
def check_stack_overflow {α : Type} (cfg : VMConfig) (stack : List α)
    (operation : String) : Option String :=
  if (stack.length : Int) ≥ cfg.max_stack_size then
    some (operation ++ " would exceed maximum stack size of " ++ toString cfg.max_stack_size)
  else none

/-- `SovereignVM._update_memory_usage`: add the delta, then raise if the
total exceeds `max_memory_size` (the increment persists). -/
def update_memory_usage (cfg : VMConfig) (st : VMState) (delta : Int) :
    VMState × Option String :=
  let st1 := { st with memory_usage := st.memory_usage + delta }
  if st1.memory_usage > cfg.max_memory_size then
    (st1, some ("Memory usage exceeded maximum of " ++ toString cfg.max_memory_size ++ " bytes"))
  else (st1, none)

/-- Per-value memory cost used by the VM helpers: 64 bytes for a string,
8 for anything else. -/
def valueSize : Value → Int
  | .str _ => 64
  | _ => 8

/-- `SovereignVM.push_data`: overflow check, append, usage accounting.
(The dispatched `PUSH` opcode does NOT call this helper.) -/
def push_data (cfg : VMConfig) (st : VMState) (v : Value) : VMState × Option String :=
  match check_stack_overflow cfg st.data_stack "Data stack push" with
  | some e => (st, some e)
  | none => update_memory_usage cfg { st with data_stack := v :: st.data_stack } (valueSize v)

/-- `SovereignVM.pop_data`. -/
def pop_data (cfg : VMConfig) (st : VMState) : VMState × Option String :=
  match st.data_stack with
  | [] => (st, some "Data stack underflow")
  | v :: rest => update_memory_usage cfg { st with data_stack := rest } (-(valueSize v))

/-- `SovereignVM.push_control`: overflow check, call-depth check, append,
usage accounting.  (The dispatched `CALL` opcode does NOT call this
helper.) -/
def push_control (cfg : VMConfig) (st : VMState) (v : Int) : VMState × Option String :=
  match check_stack_overflow cfg st.control_stack "Control stack push" with
  | some e => (st, some e)
  | none =>
    if (st.control_stack.length : Int) ≥ cfg.max_call_depth then
      (st, some ("Call depth would exceed maximum of " ++ toString cfg.max_call_depth))
    else update_memory_usage cfg { st with control_stack := v :: st.control_stack } 8

/-- `SovereignVM.set_memory`: usage accounting with `new_size - old_size`
for overwrites, then the dict assignment.  (The dispatched `STORE` opcode
does NOT call this helper.) -/
def set_memory (cfg : VMConfig) (st : VMState) (address : String) (v : Value) :
    VMState × Option String :=
  let old_size : Int :=
    match dictGet st.memory (.str address) with
    | some (.str _) => 64
    | some _ => 8
    | none => 0
  match update_memory_usage cfg st (valueSize v - old_size) with
  | (st1, some e) => (st1, some e)
  | (st1, none) => ({ st1 with memory := dictSet st1.memory (.str address) v }, none)

/-! ### Parser (`core/parser.py`)

The Lark grammar in `SOVEREIGN_GRAMMAR` ignores whitespace, newlines and
`;` comments, and builds statements that are either instructions
(`WORD operand*`) or label definitions (`WORD ":"`).  The token and
statement layer is modelled below, following Lark's `parser="lalr"`
semantics:

* The lexer is contextual: only the terminals acceptable in the current
  LALR state are tried.  After `"#"` that set is `{SIGNED_NUMBER}` and
  after `"@"` it is `{HEX_STRING}` (plus the `%ignore`d whitespace,
  newlines and comments, which may therefore separate the punctuation
  from its number).  The model fuses the two-token pairs
  `"#" SIGNED_NUMBER` and `"@" HEX_STRING` into single tokens carrying
  the number text and the hex text.
* When several acceptable terminals match, Lark orders them by priority,
  then theoretical maximum width, then length of the pattern definition.
  The unbounded-width `WORD` therefore shadows the anonymous
  one-character `"r"` literal of `register: "r" NUMBER`, so `r1` is
  always lexed as a `WORD` and the `register` rule is unreachable: every
  word in operand position becomes a `label_ref`.
* The grammar has a shift/reduce conflict on `WORD` after an
  instruction (another operand vs. the next statement); Lark's LALR
  builder resolves shift/reduce conflicts in favour of shifting, so a
  word following an instruction is always consumed as a `label_ref`
  operand — an instruction extends until `":"` (a parse error there) or
  the end of input.  A label definition can only occur before the first
  instruction or after another label.
* `SIGNED_NUMBER` (from `common.lark`) is `["+"|"-"] (FLOAT | INT)`;
  `SovereignTransformer.immediate` applies Python `int()` to its text,
  which raises `ValueError` on float and exponent forms.  The model
  reports that failure where the operand is built; the observable result
  of `parse` (a wrapped ParseError) is the same. -/

/-- A token of the assembly surface syntax.  An `imm` carries the raw
`SIGNED_NUMBER` text following a `"#"` (the transformer applies `int()`
to it later); an `addr` carries the `HEX_STRING` text following a `"@"`;
a `strLit` carries the raw text between the quotes:
`SovereignTransformer.string_literal` strips the quotes with `[1:-1]`
and performs no unescaping. -/
inductive Tok where
  | word (s : String)
  | colon
  | imm (text : String)
  | addr (s : String)
  | strLit (s : String)
deriving DecidableEq, Repr

/-- A parse-tree statement handed to `SovereignTransformer.program`. -/
inductive Statement where
  | instr (i : Instruction)
  | label (name : String)
deriving DecidableEq, Repr

/-- Hexadecimal digit as in the `HEX_STRING` terminal `[a-fA-F0-9]`. -/
def isHexChar (c : Char) : Bool :=
  c.isDigit || ('a' ≤ c && c ≤ 'f') || ('A' ≤ c && c ≤ 'F')

/-- First character of the `WORD` terminal `[A-Za-z_][A-Za-z0-9_]*`. -/
def isWordStart (c : Char) : Bool := c.isAlpha || c == '_'

/-- Continuation character of the `WORD` terminal. -/
def isWordChar (c : Char) : Bool := c.isAlpha || c.isDigit || c == '_'

/-- Decimal value of a digit string (most significant first). -/
def natOfDigits (ds : List Char) : Nat :=
  ds.foldl (fun acc c => 10 * acc + (c.toNat - 48)) 0

/-- Scan the remainder of an `ESCAPED_STRING` after the opening quote:
a backslash escapes the following character, a bare quote closes the
token, and a newline cannot occur inside (the underlying regex's `.`
does not match newlines).  Returns the raw inner text and the rest. -/
def scanStringAux : List Char → Option (List Char × List Char)
  | [] => none
  | c :: rest =>
    if c = '"' then some ([], rest)
    else if c = '\\' then
      match rest with
      | [] => none
      | c2 :: rest2 =>
        if c2 = '\n' then none
        else (scanStringAux rest2).map (fun p => (c :: c2 :: p.1, p.2))
    else if c = '\n' then none
    else (scanStringAux rest).map (fun p => (c :: p.1, p.2))

/-- The `INT` terminal fragment of `common.lark`: a maximal nonempty
digit run. -/
def lexInt (cs : List Char) : Option (List Char × List Char) :=
  let ds := cs.takeWhile Char.isDigit
  if ds.isEmpty then none else some (ds, cs.dropWhile Char.isDigit)

/-- The `_EXP` fragment: `("e"|"E") SIGNED_INT`. -/
def lexExp : List Char → Option (List Char × List Char)
  | c :: cs =>
    if c = 'e' ∨ c = 'E' then
      match cs with
      | s :: cs2 =>
        if s = '+' ∨ s = '-' then (lexInt cs2).map (fun p => (c :: s :: p.1, p.2))
        else (lexInt cs).map (fun p => (c :: p.1, p.2))
      | [] => none
    else none
  | [] => none

/-- The `DECIMAL` fragment: `INT "." INT? | "." INT`. -/
def lexDecimal (cs : List Char) : Option (List Char × List Char) :=
  match lexInt cs with
  | some (ds, rest) =>
    match rest with
    | '.' :: rest2 =>
      let ds2 := rest2.takeWhile Char.isDigit
      some (ds ++ '.' :: ds2, rest2.dropWhile Char.isDigit)
    | _ => none
  | none =>
    match cs with
    | '.' :: rest2 => (lexInt rest2).map (fun p => ('.' :: p.1, p.2))
    | _ => none

/-- The `FLOAT` fragment: `INT _EXP | DECIMAL _EXP?`, first alternative
preferred as in the compiled regex. -/
def lexFloat (cs : List Char) : Option (List Char × List Char) :=
  match
    match lexInt cs with
    | some (ds, rest) => (lexExp rest).map (fun p => (ds ++ p.1, p.2))
    | none => none
  with
  | some p => some p
  | none =>
    match lexDecimal cs with
    | some (ds2, rest2) =>
      match lexExp rest2 with
      | some (es, rest3) => some (ds2 ++ es, rest3)
      | none => some (ds2, rest2)
    | none => none

/-- The `NUMBER` terminal: `FLOAT | INT`. -/
def lexNumber (cs : List Char) : Option (List Char × List Char) :=
  match lexFloat cs with
  | some p => some p
  | none => lexInt cs

/-- The `SIGNED_NUMBER` terminal: `["+"|"-"] NUMBER`. -/
def lexSignedNumber (cs : List Char) : Option (List Char × List Char) :=
  match cs with
  | c :: cs1 =>
    if c = '+' ∨ c = '-' then (lexNumber cs1).map (fun p => (c :: p.1, p.2))
    else lexNumber cs
  | [] => none

/-- Python's `int()` applied to a text matched by `SIGNED_NUMBER` (as
`SovereignTransformer.immediate` does): it succeeds exactly on an
optional sign followed by digits; float and exponent forms raise
`ValueError`. -/
def pyIntOfString (s : String) : Option Int :=
  match s.data with
  | '+' :: ds =>
    if ¬ds.isEmpty ∧ ds.all Char.isDigit then some (natOfDigits ds : Int) else none
  | '-' :: ds =>
    if ¬ds.isEmpty ∧ ds.all Char.isDigit then some (-(natOfDigits ds : Int)) else none
  | ds =>
    if ¬ds.isEmpty ∧ ds.all Char.isDigit then some (natOfDigits ds : Int) else none

/-- The lexing context of Lark's contextual lexer, as far as this
grammar distinguishes it: after shifting `"#"` only `SIGNED_NUMBER` is
acceptable, after `"@"` only `HEX_STRING`; everywhere else the
statement/operand terminals apply. -/
inductive LexMode where
  | normal
  | afterHash
  | afterAt
deriving DecidableEq, Repr

/-- Tokenizer for the Lark grammar's terminals with the `%ignore`d
whitespace, newlines and `;…` comments stripped (they are dropped in
every lexer context, also between `"#"` or `"@"` and the following
number or hex string).  The fuel argument only bounds the recursion;
every step consumes at least one character, so `length + 1` fuel (as
supplied by `tokenize`) never runs out. -/
def tokenizeAux : LexMode → Nat → List Char → Except String (List Tok)
  | _, 0, _ => .error "token scan fuel exhausted"
  | .normal, _, [] => .ok []
  | .afterHash, _, [] => .error "Unexpected end of input"
  | .afterAt, _, [] => .error "Unexpected end of input"
  | m, f + 1, c :: cs =>
    if c = ' ' ∨ c = '\t' ∨ c = '\r' ∨ c = '\n' then tokenizeAux m f cs
    else if c = ';' then tokenizeAux m f (cs.dropWhile (· ≠ '\n'))
    else
      match m with
      | .afterHash =>
        match lexSignedNumber (c :: cs) with
        | none => .error ("No terminal matches " ++ String.mk [c])
        | some (txt, rest) =>
          (Tok.imm (String.mk txt) :: ·) <$> tokenizeAux .normal f rest
      | .afterAt =>
        if isHexChar c then
          let hs := cs.takeWhile isHexChar
          (Tok.addr (String.mk (c :: hs)) :: ·) <$>
            tokenizeAux .normal f (cs.dropWhile isHexChar)
        else .error ("No terminal matches " ++ String.mk [c])
      | .normal =>
        if c = ':' then (Tok.colon :: ·) <$> tokenizeAux .normal f cs
        else if c = '#' then tokenizeAux .afterHash f cs
        else if c = '@' then tokenizeAux .afterAt f cs
        else if c = '"' then
          match scanStringAux cs with
          | none => .error "No terminal matches \x22"
          | some (inner, rest) =>
            (Tok.strLit (String.mk inner) :: ·) <$> tokenizeAux .normal f rest
        else if isWordStart c then
          let ws := cs.takeWhile isWordChar
          (Tok.word (String.mk (c :: ws)) :: ·) <$>
            tokenizeAux .normal f (cs.dropWhile isWordChar)
        else .error ("No terminal matches " ++ String.mk [c])

/-- Tokenize a whole source text. -/
def tokenize (s : String) : Except String (List Tok) :=
  tokenizeAux .normal (s.data.length + 1) s.data

/-- Consume the operands of one instruction: immediates, addresses,
string literals, and words.  Lark resolves the grammar's shift/reduce
conflict on `WORD` in favour of shifting, so every word here is consumed
as a `label_ref` operand (see the section note: the `register` rule is
unreachable because `WORD` shadows the anonymous `"r"` terminal).
Building an immediate applies `int()` to the `SIGNED_NUMBER` text, as
`SovereignTransformer.immediate` does. -/
def takeOperands : List Tok → Except String (List Operand × List Tok)
  | .imm t :: rest =>
    match pyIntOfString t with
    | none => .error ("invalid literal for int() with base 10: '" ++ t ++ "'")
    | some v => (fun p => (.immediate v :: p.1, p.2)) <$> takeOperands rest
  | .addr s :: rest => (fun p => (.address s :: p.1, p.2)) <$> takeOperands rest
  | .strLit s :: rest => (fun p => (.stringLiteral s :: p.1, p.2)) <$> takeOperands rest
  | .word w :: rest => (fun p => (.labelRef w :: p.1, p.2)) <$> takeOperands rest
  | ts => .ok ([], ts)

/-- Parse the token stream into the statement sequence of the `program`
rule.  A label statement (`WORD ":"`) can only start where no
instruction is in progress — at the beginning or after another label —
because `takeOperands` consumes every word after an instruction as an
operand (shift-resolution), leaving either the end of input or a `":"`,
which is a parse error.  The fuel only bounds the recursion; every
statement consumes at least one token, so the fuel supplied by
`parseStatements` never runs out. -/
def parseStatementsAux : Nat → List Tok → Except String (List Statement)
  | 0, _ => .error "statement scan fuel exhausted"
  | _, [] => .ok []
  | f + 1, .word w :: .colon :: rest =>
    (Statement.label w :: ·) <$> parseStatementsAux f rest
  | f + 1, .word w :: rest =>
    match takeOperands rest with
    | .error e => .error e
    | .ok p => (Statement.instr ⟨w, p.1⟩ :: ·) <$> parseStatementsAux f p.2
  | _, _ => .error "Unexpected token"

/-- Parse a full token stream into statements. -/
def parseStatements (ts : List Tok) : Except String (List Statement) :=
  parseStatementsAux (ts.length + 1) ts

/-- One step of the loop in `SovereignTransformer.program`: an
instruction is appended; a label definition binds its name to the
current instruction count in the label dict, silently overwriting any
earlier binding of the same name. -/
def transformStep (acc : List Instruction × List (String × Int)) :
    Statement → List Instruction × List (String × Int)
  | .instr i => (acc.1 ++ [i], acc.2)
  | .label n => (acc.1, dictSet acc.2 n (acc.1.length : Int))

/-- `SovereignTransformer.program`: fold `transformStep` over the
statement sequence.  There is no failure path: no statement sequence
makes it raise. -/
def transformProgram (items : List Statement) : Program :=
  let r := items.foldl transformStep ([], [])
  ⟨r.1, r.2⟩

/-- The instruction statements of a statement sequence, in order. -/
def stmtInstrs (items : List Statement) : List Instruction :=
  items.filterMap (fun s => match s with | .instr i => some i | .label _ => none)

/-- `SovereignParser.parse`: run the Lark front end and the transformer;
any front-end exception is wrapped into
`ParseError("Failed to parse source: …")`. -/
def parse (source : String) : Except String Program :=
  match tokenize source >>= parseStatements with
  | .error e => .error ("Failed to parse source: " ++ e)
  | .ok items => .ok (transformProgram items)

/-! ### Interpreter facade (`core/interpreter.py`) -/

/-- The two exception kinds `SovereignInterpreter.run` can surface:
`ParseError` from the parser; `RuntimeError` from execution. -/
inductive RunError where
  | parseError (msg : String)
  | runtimeError (msg : String)
deriving DecidableEq, Repr

/-- `SovereignInterpreter.run` on a freshly constructed interpreter
(default-config VM, default state): parse, then execute.  A `ParseError`
is re-raised unchanged; any exception from `vm.execute` is caught and
re-raised as `RuntimeError("Execution failed: …")`. -/
def run (source : String) : Except RunError VMState :=
  match parse source with
  | .error m => .error (.parseError m)
  | .ok prog =>
    match execute {} prog {} with
    | (_, some e) => .error (.runtimeError ("Execution failed: " ++ e))
    | (st, none) => .ok st

/-- The states observed at the head of the fetch loop (the point where
the §3 loop invariants of the specification are asserted), beginning
with `st` and following `execIter` for at most `fuel` iterations. -/
def loopHeads (cfg : VMConfig) (prog : Program) : Nat → VMState → List VMState
  | 0, st => [st]
  | f + 1, st =>
    st ::
      (match execIter cfg prog st with
       | .next s => loopHeads cfg prog f s
       | .done _ _ => [])

/-! ### Operand text parsing (`SovereignParser.parse_instruction` grammar)

`parse_instruction` uses its own grammar whose operand terminals are the
regexes `r[0-9]+` (register), `#-?[0-9]+`, `@[a-fA-F0-9]+`,
`ESCAPED_STRING` and `[a-z_][a-z0-9_]*` (label references are lowercase
there), and whose manual transformer strips the decoration characters
without unescaping string contents.  When several terminals can match,
Lark's lexer orders them by priority, then theoretical maximum width,
then length of the pattern definition; the `register` and `label_ref`
regexes share priority 0 and are both unbounded, so the longer-written
`[a-z_][a-z0-9_]*` is tried first.  Every text matched by `r[0-9]+` is
also matched by `[a-z_][a-z0-9_]*` (at least as far), so the `register`
terminal is dead: `r5` lexes as a `label_ref` and yields
`LabelRef("r5")`, never `Register(5)`.  `parseOperandText` parses one
full operand text under that resolution. -/

/-- First character of the `label_ref` regex of the single-instruction
grammar: `[a-z_]`. -/
def isLabelStart (c : Char) : Bool := ('a' ≤ c && c ≤ 'z') || c == '_'

/-- Continuation character of that `label_ref` regex: `[a-z0-9_]`. -/
def isLabelChar (c : Char) : Bool := ('a' ≤ c && c ≤ 'z') || c.isDigit || c == '_'

/-- Parse the textual form of a single operand, per the
`parse_instruction` grammar and its manual transformer. -/
def parseOperandText (s : String) : Option Operand :=
  match s.data with
  | [] => none
  | c :: cs =>
    if c = '#' then
      match cs with
      | [] => none
      | c2 :: ds2 =>
        if c2 = '-' then
          if ds2 ≠ [] ∧ ds2.all Char.isDigit then
            some (.immediate (-(natOfDigits ds2 : Int)))
          else none
        else
          if (c2 :: ds2).all Char.isDigit then
            some (.immediate (natOfDigits (c2 :: ds2) : Int))
          else none
    else if c = '@' then
      if cs ≠ [] ∧ cs.all isHexChar then some (.address (String.mk cs)) else none
    else if c = '"' then
      match scanStringAux cs with
      | some (inner, []) => some (.stringLiteral (String.mk inner))
      | _ => none
    else if isLabelStart c ∧ cs.all isLabelChar then some (.labelRef s)
    else none


/-- The class of operands whose printed form parses back to an equal
operand under the `parse_instruction` grammar, used to state the amended
round-trip property of C9: all immediates, addresses storing a non-empty
hex string, string literals free of double quotes, backslashes and
newlines, and label references matching `[a-z_][a-z0-9_]*` (including
the register-shaped ones, since `r<digits>` lexes as a `label_ref`).
Registers never round-trip: `Register(n)` prints as `r<n>`, which the
dead `register` terminal cannot claim, so it parses back as
`LabelRef("r<n>")` (or not at all when `n` is negative). -/
def roundTrippable : Operand → Prop
  | .register _ => False
  | .immediate _ => True
  | .address s => s.data ≠ [] ∧ s.data.all isHexChar
  | .stringLiteral s => ∀ c ∈ s.data, c ≠ '"' ∧ c ≠ '\\' ∧ c ≠ '\n'
  | .labelRef nm =>
    match nm.data with
    | [] => False
    | c :: cs => isLabelStart c ∧ cs.all isLabelChar

/-- Hypothesis class of the amended C3: every label index lies within
`[0, len]` (as the streaming label construction guarantees for parsed
programs), and every integer-immediate operand of a control-transfer
opcode (JMP/JZ/JNZ/CALL, identified case-insensitively) lies within
`[0, len]`. -/
def jumpTargetsInRange (prog : Program) : Prop :=
  (∀ p ∈ prog.labels, 0 ≤ p.2 ∧ p.2 ≤ (prog.instructions.length : Int)) ∧
  (∀ inst ∈ prog.instructions,
    (pyUpper inst.opcode = "JMP" ∨ pyUpper inst.opcode = "JZ" ∨
     pyUpper inst.opcode = "JNZ" ∨ pyUpper inst.opcode = "CALL") →
    ∀ v : Int, Operand.immediate v ∈ inst.operands →
      0 ≤ v ∧ v ≤ (prog.instructions.length : Int))

/-- The loop-head invariant of the amended C3: program counter within
`[0, len]`, and every return address on the control stack within
`[0, len]`. -/
def pcInvariant (prog : Program) (st : VMState) : Prop :=
  (0 ≤ st.program_counter ∧ st.program_counter ≤ (prog.instructions.length : Int)) ∧
  ∀ r ∈ st.control_stack, 0 ≤ r ∧ r ≤ (prog.instructions.length : Int)

/-- A state with the `error_state` slot blanked: the observables of C8
(data stack, control stack, memory, registers, program counter, running
flag, step count, memory usage) without the error message, whose text
can differ between casings ("Invalid arguments for push" vs "PUSH"). -/
def eraseErr (st : VMState) : VMState := { st with error_state := none }

/-- Two programs that differ only in the letter case of opcodes, with
the restriction the C8 counterexample forces: an opcode spelled exactly
`"HALT"` in one program must be spelled exactly `"HALT"` in the other
(the fetch loop's HALT special case is an exact string comparison).
Operands and labels are identical. -/
def progCaseEquiv (p1 p2 : Program) : Prop :=
  p1.labels = p2.labels ∧
  List.Forall₂
    (fun a b => pyUpper a.opcode = pyUpper b.opcode ∧
      (a.opcode = "HALT" ↔ b.opcode = "HALT") ∧ a.operands = b.operands)
    p1.instructions p2.instructions

/-! ### Supporting lemmas -/

theorem execute_instruction_steps (labels : List (String × Int)) (st : VMState)
    (inst : Instruction) :
    (execute_instruction labels st inst).1.execution_steps = st.execution_steps := by
  unfold execute_instruction
  cases get_opcode inst.opcode <;> dsimp only
  · rcases h : resolveArgs labels st.registers inst.operands with e | args <;> simp only
    split
    · rfl
    · rcases opExec _ args _ with ⟨c', e⟩
      cases e <;> rfl

theorem execIter_next_steps (cfg : VMConfig) (prog : Program) (st s : VMState)
    (h : execIter cfg prog st = .next s) :
    s.execution_steps = st.execution_steps + 1 ∧
      st.execution_steps + 1 < cfg.max_execution_steps := by
  unfold execIter at h
  split at h
  · dsimp only at h
    split at h
    · simp at h
    · rename_i hlim
      split at h
      · simp at h
      · rename_i inst hins
        split at h
        · simp at h
        · split at h
          · simp at h
          · rename_i st2 heq
            simp only [IterResult.next.injEq] at h
            subst h
            have hs := execute_instruction_steps prog.labels
              { st with execution_steps := st.execution_steps + 1 } inst
            rw [heq] at hs
            dsimp only at hs
            exact ⟨by simpa using hs, by omega⟩
  · simp at h

theorem execLoopAux_congr (cfg : VMConfig) (prog : Program) :
    ∀ (f₁ f₂ : Nat) (st : VMState),
      (cfg.max_execution_steps - st.execution_steps).toNat < f₁ →
      (cfg.max_execution_steps - st.execution_steps).toNat < f₂ →
      execLoopAux cfg prog f₁ st = execLoopAux cfg prog f₂ st := by
  intro f₁
  induction f₁ with
  | zero => intro f₂ st h1 _; omega
  | succ n ih =>
    intro f₂ st h1 h2
    match f₂, h2 with
    | m + 1, h2 =>
      simp only [execLoopAux]
      cases hit : execIter cfg prog st with
      | done s e => rfl
      | next s =>
        have hs := execIter_next_steps cfg prog st s hit
        exact ih m s (by omega) (by omega)

theorem execLoop_done (cfg : VMConfig) (prog : Program) (st s : VMState) (e : Option String)
    (h : execIter cfg prog st = .done s e) :
    execLoop cfg prog st = (s, e) := by
  simp only [execLoop, execLoopAux, h]

theorem execLoop_next_of_iter (cfg : VMConfig) (prog : Program) (st s : VMState)
    (h : execIter cfg prog st = .next s) :
    execLoop cfg prog st = execLoop cfg prog s := by
  have hs := execIter_next_steps cfg prog st s h
  simp only [execLoop, execLoopAux, h]
  exact execLoopAux_congr cfg prog
    (cfg.max_execution_steps - st.execution_steps).toNat
    ((cfg.max_execution_steps - s.execution_steps).toNat + 1) s (by omega) (by omega)


/-! ### Dictionary lemmas -/

theorem find?_map_dictSet_self {α β : Type} [BEq α] [LawfulBEq α] (k : α) (v : β) :
    ∀ m : List (α × β), m.any (fun p => p.1 == k) = true →
      (m.map (fun p => if p.1 == k then (k, v) else p)).find? (fun p => p.1 == k) =
        some (k, v) := by
  intro m
  induction m with
  | nil => intro hany; simp at hany
  | cons p t ih =>
    intro hany
    obtain ⟨a, b⟩ := p
    by_cases hp : a = k
    · subst hp
      simp
    · have hb : ((a, b).1 == k) = false := by simp [hp]
      simp only [List.any_cons, hb, Bool.false_or] at hany
      rw [List.map_cons, if_neg (by simp [hp]),
        List.find?_cons_of_neg _ (by simp [hp])]
      exact ih hany

theorem dictGet_dictSet_self {α β : Type} [BEq α] [LawfulBEq α]
    (m : List (α × β)) (k : α) (v : β) : dictGet (dictSet m k v) k = some v := by
  unfold dictSet
  by_cases hany : m.any (fun p => p.1 == k) = true
  · rw [if_pos hany, dictGet, find?_map_dictSet_self k v m hany]
    rfl
  · rw [if_neg hany, dictGet, List.find?_append]
    have hnone : m.find? (fun p => p.1 == k) = none := by
      rw [List.find?_eq_none]
      intro x hx hcon
      exact hany (List.any_eq_true.mpr ⟨x, hx, hcon⟩)
    rw [hnone]
    simp

theorem find?_map_dictSet_other {α β : Type} [BEq α] [LawfulBEq α] (k k' : α) (v : β)
    (hne : k ≠ k') :
    ∀ m : List (α × β),
      Option.map (fun p => p.2)
          ((m.map (fun p => if p.1 == k then (k, v) else p)).find? (fun p => p.1 == k')) =
        Option.map (fun p => p.2) (m.find? (fun p => p.1 == k')) := by
  intro m
  induction m with
  | nil => simp
  | cons p t ih =>
    obtain ⟨a, b⟩ := p
    by_cases hp : a = k
    · subst hp
      rw [List.map_cons, if_pos (by simp),
        List.find?_cons_of_neg _ (by simp [hne]),
        List.find?_cons_of_neg _ (by simp [hne])]
      exact ih
    · rw [List.map_cons, if_neg (by simp [hp])]
      by_cases hp' : a = k'
      · rw [List.find?_cons_of_pos _ (by simp [hp']),
          List.find?_cons_of_pos _ (by simp [hp'])]
      · rw [List.find?_cons_of_neg _ (by simp [hp']),
          List.find?_cons_of_neg _ (by simp [hp'])]
        exact ih

theorem dictGet_dictSet_other {α β : Type} [BEq α] [LawfulBEq α]
    (m : List (α × β)) (k k' : α) (v : β) (hne : k ≠ k') :
    dictGet (dictSet m k v) k' = dictGet m k' := by
  unfold dictSet
  by_cases hany : m.any (fun p => p.1 == k) = true
  · rw [if_pos hany, dictGet, dictGet]
    exact find?_map_dictSet_other k k' v hne m
  · rw [if_neg hany, dictGet, List.find?_append]
    have h1 : List.find? (fun p => p.1 == k') [(k, v)] = none := by
      simp [List.find?_cons, hne]
    rw [h1]
    cases hfm : m.find? (fun p => p.1 == k') <;> simp [dictGet, hfm]

/-! ### Transformer lemmas -/

theorem foldl_transformStep_instrs (items : List Statement) :
    ∀ acc : List Instruction × List (String × Int),
      (items.foldl transformStep acc).1 = acc.1 ++ stmtInstrs items := by
  induction items with
  | nil => intro acc; simp [stmtInstrs]
  | cons s t ih =>
    intro acc
    cases s with
    | instr i =>
      rw [List.foldl_cons, ih]
      simp [transformStep, stmtInstrs]
    | label n =>
      rw [List.foldl_cons, ih]
      simp [transformStep, stmtInstrs]

theorem foldl_transformStep_labels_of_not_mem (items : List Statement) (n : String)
    (hn : Statement.label n ∉ items) :
    ∀ acc : List Instruction × List (String × Int),
      dictGet (items.foldl transformStep acc).2 n = dictGet acc.2 n := by
  induction items with
  | nil => intro acc; rfl
  | cons s t ih =>
    intro acc
    have hs : s ≠ Statement.label n := fun h => hn (by simp [h])
    have ht : Statement.label n ∉ t := fun h => hn (by simp [h])
    cases s with
    | instr i => rw [List.foldl_cons, ih ht]; rfl
    | label m =>
      have hm : m ≠ n := fun h => hs (by rw [h])
      rw [List.foldl_cons, ih ht]
      exact dictGet_dictSet_other _ _ _ _ hm

/-! ### Dispatch characterization lemmas -/

theorem execIter_dispatch (cfg : VMConfig) (prog : Program) (st : VMState) (inst : Instruction)
    (hrun : st.running = true) (hp : 0 ≤ st.program_counter)
    (hlt : st.program_counter < (prog.instructions.length : Int))
    (hsteps : st.execution_steps + 1 < cfg.max_execution_steps)
    (hins : prog.instructions.get? st.program_counter.toNat = some inst)
    (hhalt : ¬inst.opcode = "HALT") :
    execIter cfg prog st =
      (match execute_instruction prog.labels
          { st with execution_steps := st.execution_steps + 1 } inst with
       | (st2, some e) => .done { st2 with error_state := some e, running := false } (some e)
       | (st2, none) => .next { st2 with program_counter := st2.program_counter + 1 }) := by
  unfold execIter
  rw [if_pos ⟨hrun, hlt⟩]
  dsimp only
  rw [if_neg (by omega)]
  have hget : pyListGet prog.instructions st.program_counter = some inst := by
    unfold pyListGet
    rw [if_pos hp]
    exact hins
  rw [hget]
  dsimp only
  rw [if_neg (by simpa using hhalt)]
  rcases execute_instruction prog.labels
      { st with execution_steps := st.execution_steps + 1 } inst with ⟨st2, e⟩
  cases e <;> rfl

theorem execIter_halt (cfg : VMConfig) (prog : Program) (st : VMState) (inst : Instruction)
    (hrun : st.running = true) (hp : 0 ≤ st.program_counter)
    (hlt : st.program_counter < (prog.instructions.length : Int))
    (hsteps : st.execution_steps + 1 < cfg.max_execution_steps)
    (hins : prog.instructions.get? st.program_counter.toNat = some inst)
    (hhalt : inst.opcode = "HALT") :
    execIter cfg prog st =
      .done { st with execution_steps := st.execution_steps + 1, running := false } none := by
  unfold execIter
  rw [if_pos ⟨hrun, hlt⟩]
  dsimp only
  rw [if_neg (by omega)]
  have hget : pyListGet prog.instructions st.program_counter = some inst := by
    unfold pyListGet
    rw [if_pos hp]
    exact hins
  rw [hget]
  dsimp only
  rw [if_pos (by simpa using hhalt)]

theorem execute_instruction_push_imm (labels : List (String × Int)) (st : VMState) (v : Int) :
    execute_instruction labels st ⟨"PUSH", [.immediate v]⟩ =
      ({ st with data_stack := Value.int v :: st.data_stack }, none) := by
  obtain ⟨ds, cs, mem, regs, pc, rn, err, steps, mu⟩ := st
  rfl

theorem execute_instruction_call (labels : List (String × Int)) (st : VMState)
    (ops : List Operand) (t : Int)
    (hres : resolveArgs labels st.registers ops = .ok [Value.int t]) :
    execute_instruction labels st ⟨"CALL", ops⟩ =
      ({ st with control_stack := (st.program_counter + 1) :: st.control_stack,
                 program_counter := t - 1 }, none) := by
  unfold execute_instruction
  rw [show get_opcode "CALL" = some "CALL" from rfl]
  dsimp only
  rw [hres]
  rfl

theorem execute_instruction_ret (labels : List (String × Int)) (st : VMState)
    (r : Int) (rest : List Int) (h : st.control_stack = r :: rest) :
    execute_instruction labels st ⟨"RET", []⟩ =
      ({ st with control_stack := rest, program_counter := r - 1 }, none) := by
  obtain ⟨ds, cs, mem, regs, pc, rn, err, steps, mu⟩ := st
  dsimp only at h
  subst h
  rfl

set_option maxHeartbeats 1000000 in
theorem opExec_neutral (op : String)
    (hop : op ∈ ["PUSH", "POP", "DUP", "SWAP", "ROT", "OVER", "DROP", "CLEAR",
      "ADD", "SUB", "MUL", "DIV", "AND", "OR", "XOR", "NOT", "FORK", "JOIN", "HALT",
      "LOAD", "STORE", "FOPEN", "FREAD", "FWRITE", "FCLOSE", "LLMGEN", "EVOLVE"])
    (args : List Value) (c : Ctx) (c' : Ctx) (e : Option String)
    (hval : validate_args op args = true)
    (hexec : opExec op args c = (c', e)) :
    c'.program_counter = c.program_counter ∧ c'.control_stack = c.control_stack := by
  obtain ⟨ds, cs, mem, pc⟩ := c
  simp only [List.mem_cons, List.not_mem_nil, or_false] at hop
  rcases hop with rfl | rfl | rfl | rfl | rfl | rfl | rfl | rfl | rfl | rfl | rfl | rfl |
    rfl | rfl | rfl | rfl | rfl | rfl | rfl | rfl | rfl | rfl | rfl | rfl | rfl | rfl | rfl
  · rcases args with _ | ⟨v, _ | ⟨w, r⟩⟩
    · simp [validate_args] at hval
    · simp only [opExec] at hexec
      repeat' split at hexec
      all_goals (injection hexec with h1 h2; subst h1; exact ⟨rfl, rfl⟩)
    · simp [validate_args] at hval
  · simp only [opExec] at hexec
    repeat' split at hexec
    all_goals (injection hexec with h1 h2; subst h1; exact ⟨rfl, rfl⟩)
  · simp only [opExec] at hexec
    repeat' split at hexec
    all_goals (injection hexec with h1 h2; subst h1; exact ⟨rfl, rfl⟩)
  · simp only [opExec] at hexec
    repeat' split at hexec
    all_goals (injection hexec with h1 h2; subst h1; exact ⟨rfl, rfl⟩)
  · simp only [opExec] at hexec
    repeat' split at hexec
    all_goals (injection hexec with h1 h2; subst h1; exact ⟨rfl, rfl⟩)
  · simp only [opExec] at hexec
    repeat' split at hexec
    all_goals (injection hexec with h1 h2; subst h1; exact ⟨rfl, rfl⟩)
  · simp only [opExec] at hexec
    repeat' split at hexec
    all_goals (injection hexec with h1 h2; subst h1; exact ⟨rfl, rfl⟩)
  · simp only [opExec] at hexec
    repeat' split at hexec
    all_goals (injection hexec with h1 h2; subst h1; exact ⟨rfl, rfl⟩)
  · simp only [opExec] at hexec
    repeat' split at hexec
    all_goals (injection hexec with h1 h2; subst h1; exact ⟨rfl, rfl⟩)
  · simp only [opExec] at hexec
    repeat' split at hexec
    all_goals (injection hexec with h1 h2; subst h1; exact ⟨rfl, rfl⟩)
  · simp only [opExec] at hexec
    repeat' split at hexec
    all_goals (injection hexec with h1 h2; subst h1; exact ⟨rfl, rfl⟩)
  · simp only [opExec] at hexec
    repeat' split at hexec
    all_goals (injection hexec with h1 h2; subst h1; exact ⟨rfl, rfl⟩)
  · simp only [opExec] at hexec
    repeat' split at hexec
    all_goals (injection hexec with h1 h2; subst h1; exact ⟨rfl, rfl⟩)
  · simp only [opExec] at hexec
    repeat' split at hexec
    all_goals (injection hexec with h1 h2; subst h1; exact ⟨rfl, rfl⟩)
  · simp only [opExec] at hexec
    repeat' split at hexec
    all_goals (injection hexec with h1 h2; subst h1; exact ⟨rfl, rfl⟩)
  · simp only [opExec] at hexec
    repeat' split at hexec
    all_goals (injection hexec with h1 h2; subst h1; exact ⟨rfl, rfl⟩)
  · simp only [opExec] at hexec
    repeat' split at hexec
    all_goals (injection hexec with h1 h2; subst h1; exact ⟨rfl, rfl⟩)
  · simp only [opExec] at hexec
    repeat' split at hexec
    all_goals (injection hexec with h1 h2; subst h1; exact ⟨rfl, rfl⟩)
  · simp only [opExec] at hexec
    repeat' split at hexec
    all_goals (injection hexec with h1 h2; subst h1; exact ⟨rfl, rfl⟩)
  · rcases args with _ | ⟨v, _ | ⟨w, r⟩⟩
    · simp [validate_args] at hval
    · simp only [opExec] at hexec
      repeat' split at hexec
      all_goals (injection hexec with h1 h2; subst h1; exact ⟨rfl, rfl⟩)
    · simp [validate_args] at hval
  · rcases args with _ | ⟨v, _ | ⟨w, r⟩⟩
    · simp [validate_args] at hval
    · simp only [opExec] at hexec
      repeat' split at hexec
      all_goals (injection hexec with h1 h2; subst h1; exact ⟨rfl, rfl⟩)
    · simp [validate_args] at hval
  · simp only [opExec] at hexec
    repeat' split at hexec
    all_goals (injection hexec with h1 h2; subst h1; exact ⟨rfl, rfl⟩)
  · simp only [opExec] at hexec
    repeat' split at hexec
    all_goals (injection hexec with h1 h2; subst h1; exact ⟨rfl, rfl⟩)
  · simp only [opExec] at hexec
    repeat' split at hexec
    all_goals (injection hexec with h1 h2; subst h1; exact ⟨rfl, rfl⟩)
  · simp only [opExec] at hexec
    repeat' split at hexec
    all_goals (injection hexec with h1 h2; subst h1; exact ⟨rfl, rfl⟩)
  · simp only [opExec] at hexec
    repeat' split at hexec
    all_goals (injection hexec with h1 h2; subst h1; exact ⟨rfl, rfl⟩)
  · simp only [opExec] at hexec
    repeat' split at hexec
    all_goals (injection hexec with h1 h2; subst h1; exact ⟨rfl, rfl⟩)

theorem opExec_jmp_ok (args : List Value) (c c' : Ctx)
    (hval : validate_args "JMP" args = true)
    (hexec : opExec "JMP" args c = (c', none)) :
    ∃ t, args = [Value.int t] ∧ c' = { c with program_counter := t - 1 } := by
  rcases args with _ | ⟨v, _ | ⟨w, r⟩⟩
  · simp [validate_args] at hval
  · rcases v with t | sv
    · refine ⟨t, rfl, ?_⟩
      simp only [opExec] at hexec
      injection hexec with h1 h2
      exact h1.symm
    · simp [validate_args] at hval
  · simp [validate_args] at hval

theorem opExec_jz_ok (args : List Value) (c c' : Ctx)
    (hval : validate_args "JZ" args = true)
    (hexec : opExec "JZ" args c = (c', none)) :
    ∃ t, args = [Value.int t] ∧
      (c' = { c with program_counter := t - 1 } ∨ c' = c) := by
  rcases args with _ | ⟨v, _ | ⟨w, r⟩⟩
  · simp [validate_args] at hval
  · rcases v with t | sv
    · refine ⟨t, rfl, ?_⟩
      simp only [opExec] at hexec
      split at hexec
      · simp at hexec
      · split at hexec
        · left; injection hexec with h1 h2; exact h1.symm
        · right; injection hexec with h1 h2; exact h1.symm
    · simp [validate_args] at hval
  · simp [validate_args] at hval

theorem opExec_jnz_ok (args : List Value) (c c' : Ctx)
    (hval : validate_args "JNZ" args = true)
    (hexec : opExec "JNZ" args c = (c', none)) :
    ∃ t, args = [Value.int t] ∧
      (c' = { c with program_counter := t - 1 } ∨ c' = c) := by
  rcases args with _ | ⟨v, _ | ⟨w, r⟩⟩
  · simp [validate_args] at hval
  · rcases v with t | sv
    · refine ⟨t, rfl, ?_⟩
      simp only [opExec] at hexec
      split at hexec
      · simp at hexec
      · split at hexec
        · right; injection hexec with h1 h2; exact h1.symm
        · left; injection hexec with h1 h2; exact h1.symm
    · simp [validate_args] at hval
  · simp [validate_args] at hval

theorem opExec_call_ok (args : List Value) (c c' : Ctx)
    (hval : validate_args "CALL" args = true)
    (hexec : opExec "CALL" args c = (c', none)) :
    ∃ t, args = [Value.int t] ∧
      c' = { c with control_stack := (c.program_counter + 1) :: c.control_stack,
                    program_counter := t - 1 } := by
  rcases args with _ | ⟨v, _ | ⟨w, r⟩⟩
  · simp [validate_args] at hval
  · rcases v with t | sv
    · refine ⟨t, rfl, ?_⟩
      simp only [opExec] at hexec
      try dsimp only at hexec
      injection hexec with h1 h2
      exact h1.symm
    · simp only [opExec] at hexec
      simp at hexec
  · simp [validate_args] at hval

theorem opExec_ret_ok (args : List Value) (c c' : Ctx)
    (hexec : opExec "RET" args c = (c', none)) :
    ∃ r rest, c.control_stack = r :: rest ∧
      c' = { c with control_stack := rest, program_counter := r - 1 } := by
  simp only [opExec] at hexec
  rcases hcs : c.control_stack with _ | ⟨r, rest⟩
  · rw [hcs] at hexec; simp at hexec
  · rw [hcs] at hexec
    try dsimp only at hexec
    injection hexec with h1 h2
    exact ⟨r, rest, rfl, h1.symm⟩

theorem resolveArgs_length (labels : List (String × Int)) (regs : List (String × Value)) :
    ∀ (ops : List Operand) (vs : List Value),
      resolveArgs labels regs ops = .ok vs → vs.length = ops.length := by
  intro ops
  induction ops with
  | nil =>
    intro vs h
    simp only [resolveArgs, Except.ok.injEq] at h
    simp [← h]
  | cons o os ih =>
    intro vs h
    unfold resolveArgs at h
    cases hro : resolveOperand labels regs o <;> rw [hro] at h
    · simp at h
    · cases hrs : resolveArgs labels regs os <;> rw [hrs] at h
      · simp at h
      · rename_i v ws
        simp only [Except.ok.injEq] at h
        rw [← h]
        simp [ih ws hrs]

theorem resolveArgs_single (labels : List (String × Int)) (regs : List (String × Value))
    (ops : List Operand) (v : Value)
    (h : resolveArgs labels regs ops = .ok [v]) :
    ∃ op0, ops = [op0] ∧ resolveOperand labels regs op0 = .ok v := by
  rcases ops with _ | ⟨o, _ | ⟨o2, os⟩⟩
  · exact absurd (resolveArgs_length labels regs [] [v] h) (by simp)
  · refine ⟨o, rfl, ?_⟩
    unfold resolveArgs at h
    cases hro : resolveOperand labels regs o <;> rw [hro] at h
    · simp at h
    · rename_i w
      simp only [resolveArgs] at h
      simp only [Except.ok.injEq, List.cons.injEq, and_true] at h
      rw [h]
  · have := resolveArgs_length labels regs (o :: o2 :: os) [v] h
    simp at this

theorem get_opcode_some (name op : String) (h : get_opcode name = some op) :
    op = pyUpper name ∧ pyUpper name ∈ opcodeNames := by
  unfold get_opcode at h
  split at h
  · injection h with h1
    exact ⟨h1.symm, by assumption⟩
  · exact absurd h (by simp)

theorem dictGet_some_mem {α β : Type} [BEq α] (m : List (α × β)) (k : α) (v : β)
    (h : dictGet m k = some v) : ∃ p ∈ m, p.2 = v := by
  unfold dictGet at h
  cases hf : m.find? (fun p => p.1 == k) <;> rw [hf] at h
  · simp at h
  · rename_i p
    simp only [Option.map_some', Option.some.injEq] at h
    exact ⟨p, List.mem_of_find?_eq_some hf, h⟩

theorem execute_instruction_ok_shape (labels : List (String × Int)) (st1 st2 : VMState)
    (inst : Instruction)
    (hok : execute_instruction labels st1 inst = (st2, none)) :
    ∃ op args c',
      get_opcode inst.opcode = some op ∧
      resolveArgs labels st1.registers inst.operands = .ok args ∧
      validate_args op args = true ∧
      opExec op args ⟨st1.data_stack, st1.control_stack, st1.memory,
        st1.program_counter⟩ = (c', none) ∧
      st2 = { st1 with data_stack := c'.data_stack, control_stack := c'.control_stack,
                       memory := c'.memory, program_counter := c'.program_counter } := by
  unfold execute_instruction at hok
  cases hop : get_opcode inst.opcode <;> rw [hop] at hok
  · simp at hok
  · rename_i op
    dsimp only at hok
    cases hres : resolveArgs labels st1.registers inst.operands <;> rw [hres] at hok
    · simp at hok
    · rename_i args
      dsimp only at hok
      by_cases hval : validate_args op args = true
      · rw [hval] at hok
        try dsimp only at hok
        rcases hexec : opExec op args
            ⟨st1.data_stack, st1.control_stack, st1.memory, st1.program_counter⟩ with ⟨c', e⟩
        rw [hexec] at hok
        cases e
        · try dsimp only at hok
          injection hok with h1 h2
          exact ⟨op, args, c', rfl, rfl, hval, hexec, h1.symm⟩
        · simp at hok
      · rw [Bool.not_eq_true] at hval
        rw [hval] at hok
        simp at hok

theorem resolveArgs_jump_target_bound (prog : Program) (inst : Instruction) (t : Int)
    (hT : jumpTargetsInRange prog) (hmem : inst ∈ prog.instructions)
    (hjump : pyUpper inst.opcode = "JMP" ∨ pyUpper inst.opcode = "JZ" ∨
      pyUpper inst.opcode = "JNZ" ∨ pyUpper inst.opcode = "CALL")
    (hres : resolveArgs prog.labels [] inst.operands = .ok [Value.int t]) :
    0 ≤ t ∧ t ≤ (prog.instructions.length : Int) := by
  obtain ⟨op0, hops, hro⟩ := resolveArgs_single _ _ _ _ hres
  cases op0 with
  | immediate v =>
    have hv : v = t := by simpa [resolveOperand] using hro
    subst hv
    exact hT.2 inst hmem hjump v (by rw [hops]; simp)
  | register n =>
    have ht : t = 0 := by
      have : (Value.int 0 : Value) = Value.int t := by
        simpa [resolveOperand, dictGet] using hro
      simpa using this.symm
    subst ht
    refine ⟨le_refl 0, ?_⟩
    positivity
  | address s => simp [resolveOperand] at hro
  | stringLiteral s => simp [resolveOperand] at hro
  | labelRef nm =>
    unfold resolveOperand at hro
    dsimp only at hro
    cases hd : dictGet prog.labels nm <;> rw [hd] at hro
    · simp at hro
    · rename_i i
      simp only [Except.ok.injEq, Value.int.injEq] at hro
      obtain ⟨p, hpmem, hp2⟩ := dictGet_some_mem _ _ _ hd
      have := hT.1 p hpmem
      omega

set_option maxHeartbeats 800000 in
theorem execute_instruction_inv (prog : Program) (st1 st2 : VMState) (inst : Instruction)
    (hT : jumpTargetsInRange prog) (hreg : st1.registers = [])
    (hmem : inst ∈ prog.instructions)
    (hpc0 : 0 ≤ st1.program_counter)
    (hpc1 : st1.program_counter < (prog.instructions.length : Int))
    (hcs : ∀ r ∈ st1.control_stack, 0 ≤ r ∧ r ≤ (prog.instructions.length : Int))
    (hok : execute_instruction prog.labels st1 inst = (st2, none)) :
    st2.registers = [] ∧
    (0 ≤ st2.program_counter + 1 ∧
      st2.program_counter + 1 ≤ (prog.instructions.length : Int)) ∧
    ∀ r ∈ st2.control_stack, 0 ≤ r ∧ r ≤ (prog.instructions.length : Int) := by
  obtain ⟨op, args, c', hop, hres, hval, hexec, hst2⟩ :=
    execute_instruction_ok_shape _ _ _ _ hok
  obtain ⟨hopEq, hmemop⟩ := get_opcode_some _ _ hop
  subst hopEq
  subst hst2
  rw [hreg] at hres
  refine ⟨hreg, ?_⟩
  by_cases hJMP : pyUpper inst.opcode = "JMP"
  · rw [hJMP] at hexec hval
    obtain ⟨t, hargs, hc'⟩ := opExec_jmp_ok args _ c' hval hexec
    subst hc'
    rw [hargs] at hres
    have hb := resolveArgs_jump_target_bound prog inst t hT hmem (Or.inl hJMP) hres
    exact ⟨⟨by dsimp only; omega, by dsimp only; omega⟩, by dsimp only; exact hcs⟩
  by_cases hJZ : pyUpper inst.opcode = "JZ"
  · rw [hJZ] at hexec hval
    obtain ⟨t, hargs, hc'⟩ := opExec_jz_ok args _ c' hval hexec
    rw [hargs] at hres
    have hb := resolveArgs_jump_target_bound prog inst t hT hmem (Or.inr (Or.inl hJZ)) hres
    rcases hc' with hc' | hc' <;> subst hc' <;>
      exact ⟨⟨by dsimp only; omega, by dsimp only; omega⟩, by dsimp only; exact hcs⟩
  by_cases hJNZ : pyUpper inst.opcode = "JNZ"
  · rw [hJNZ] at hexec hval
    obtain ⟨t, hargs, hc'⟩ := opExec_jnz_ok args _ c' hval hexec
    rw [hargs] at hres
    have hb := resolveArgs_jump_target_bound prog inst t hT hmem
      (Or.inr (Or.inr (Or.inl hJNZ))) hres
    rcases hc' with hc' | hc' <;> subst hc' <;>
      exact ⟨⟨by dsimp only; omega, by dsimp only; omega⟩, by dsimp only; exact hcs⟩
  by_cases hCALL : pyUpper inst.opcode = "CALL"
  · rw [hCALL] at hexec hval
    obtain ⟨t, hargs, hc'⟩ := opExec_call_ok args _ c' hval hexec
    subst hc'
    rw [hargs] at hres
    have hb := resolveArgs_jump_target_bound prog inst t hT hmem
      (Or.inr (Or.inr (Or.inr hCALL))) hres
    refine ⟨⟨by dsimp only; omega, by dsimp only; omega⟩, ?_⟩
    dsimp only
    intro r hr
    rcases List.mem_cons.mp hr with rfl | hr
    · omega
    · exact hcs r hr
  by_cases hRET : pyUpper inst.opcode = "RET"
  · rw [hRET] at hexec
    obtain ⟨r, rest, hcstack, hc'⟩ := opExec_ret_ok args _ c' hexec
    subst hc'
    have hcstack2 : st1.control_stack = r :: rest := hcstack
    have hrb := hcs r (by rw [hcstack2]; simp)
    refine ⟨⟨by dsimp only; omega, by dsimp only; omega⟩, ?_⟩
    dsimp only
    intro r2 hr2
    exact hcs r2 (by rw [hcstack2]; simp [hr2])
  · have hmem27 : pyUpper inst.opcode ∈
        ["PUSH", "POP", "DUP", "SWAP", "ROT", "OVER", "DROP", "CLEAR",
         "ADD", "SUB", "MUL", "DIV", "AND", "OR", "XOR", "NOT", "FORK", "JOIN", "HALT",
         "LOAD", "STORE", "FOPEN", "FREAD", "FWRITE", "FCLOSE", "LLMGEN", "EVOLVE"] := by
      simp only [opcodeNames, List.mem_cons, List.not_mem_nil, or_false] at hmemop
      simp only [List.mem_cons, List.not_mem_nil, or_false]
      rcases hmemop with h|h|h|h|h|h|h|h|h|h|h|h|h|h|h|h|h|h|h|h|h|h|h|h|h|h|h|h|h|h|h|h <;>
        first
          | exact absurd h hJMP
          | exact absurd h hJZ
          | exact absurd h hJNZ
          | exact absurd h hCALL
          | exact absurd h hRET
          | simp [h]
    obtain ⟨hpc', hcs'⟩ := opExec_neutral (pyUpper inst.opcode) hmem27 args _ c' none hval hexec
    refine ⟨⟨?_, ?_⟩, ?_⟩
    · dsimp only; rw [hpc']; dsimp only; omega
    · dsimp only; rw [hpc']; dsimp only; omega
    · dsimp only; rw [hcs']; exact hcs

theorem execIter_next_pcInvariant (cfg : VMConfig) (prog : Program) (st s : VMState)
    (hT : jumpTargetsInRange prog) (hreg : st.registers = []) (hinv : pcInvariant prog st)
    (h : execIter cfg prog st = .next s) :
    s.registers = [] ∧ pcInvariant prog s := by
  unfold execIter at h
  split at h
  · rename_i hg
    dsimp only at h
    split at h
    · simp at h
    · split at h
      · simp at h
      · rename_i inst hins
        split at h
        · simp at h
        · split at h
          · simp at h
          · rename_i st2 heq
            simp only [IterResult.next.injEq] at h
            subst h
            have hins' : prog.instructions.get? st.program_counter.toNat = some inst := by
              unfold pyListGet at hins
              rw [if_pos (by exact hinv.1.1)] at hins
              exact hins
            have hmem : inst ∈ prog.instructions := List.get?_mem hins'
            have hx := execute_instruction_inv prog
              { st with execution_steps := st.execution_steps + 1 } st2 inst hT
              (by simpa using hreg) hmem (by simpa using hinv.1.1)
              (by simpa using hg.2) (by simpa using hinv.2) heq
            exact ⟨by simpa using hx.1, ⟨by simpa using hx.2.1, by simpa using hx.2.2⟩⟩
  · simp at h

/-- C3, amended: provided every label index and every integer-immediate
jump/call target of the program lies within `[0, len]`, and the run
starts with unset registers and in-range return addresses, the program
counter lies within `[0, len]` at every fetch-loop head. -/
theorem c3_amended_pc_in_range_at_loop_heads (cfg : VMConfig) (prog : Program)
    (fuel : Nat) (st : VMState)
    (hT : jumpTargetsInRange prog) (hreg : st.registers = [])
    (hinv : pcInvariant prog st) :
    ∀ s ∈ loopHeads cfg prog fuel st,
      0 ≤ s.program_counter ∧ s.program_counter ≤ (prog.instructions.length : Int) := by
  induction fuel generalizing st with
  | zero =>
    intro s hs
    simp only [loopHeads, List.mem_singleton] at hs
    subst hs
    exact hinv.1
  | succ f ih =>
    intro s hs
    simp only [loopHeads, List.mem_cons] at hs
    rcases hs with rfl | hs
    · exact hinv.1
    · cases hit : execIter cfg prog st with
      | done s2 e => rw [hit] at hs; simp at hs
      | next s2 =>
        rw [hit] at hs
        obtain ⟨hreg2, hinv2⟩ := execIter_next_pcInvariant cfg prog st s2 hT hreg hinv hit
        exact ih s2 hreg2 hinv2 s hs

/-- Witness for C3's amended theorem: running `JMP #1; HALT` (an
in-range integer target) visits the loop head with `program_counter = 1
∈ [0, 2]`. -/
theorem c3_amended_witness :
    0 ≤ ({ program_counter := 1, running := true, execution_steps := 1 } : VMState).program_counter ∧
    ({ program_counter := 1, running := true, execution_steps := 1 } : VMState).program_counter ≤
      (((⟨[⟨"JMP", [.immediate 1]⟩, ⟨"HALT", []⟩], []⟩ : Program)).instructions.length : Int) :=
  c3_amended_pc_in_range_at_loop_heads {} ⟨[⟨"JMP", [.immediate 1]⟩, ⟨"HALT", []⟩], []⟩ 2
    { running := true }
    ⟨by intro p hp; simp at hp,
     by
      intro inst hmem hj v hv
      rcases List.mem_cons.mp hmem with rfl | hmem2
      · simp only [List.mem_singleton] at hv
        have : v = 1 := by simpa using hv
        subst this
        exact ⟨by decide, by decide⟩
      · rcases List.mem_singleton.mp hmem2 with rfl
        rcases hj with hj | hj | hj | hj <;> exact absurd hj (by decide)⟩
    rfl
    ⟨⟨by decide, by decide⟩, by intro r hr; simp at hr⟩
    { program_counter := 1, running := true, execution_steps := 1 }
    (by decide)

theorem execIter_guard_false (cfg : VMConfig) (prog : Program) (st : VMState)
    (hg : ¬(st.running = true ∧ st.program_counter < (prog.instructions.length : Int))) :
    execIter cfg prog st = .done st none := by
  unfold execIter
  rw [if_neg hg]

theorem execIter_step_limit (cfg : VMConfig) (prog : Program) (st : VMState)
    (hg : st.running = true ∧ st.program_counter < (prog.instructions.length : Int))
    (hlim : st.execution_steps + 1 ≥ cfg.max_execution_steps) :
    execIter cfg prog st =
      .done { st with
                execution_steps := st.execution_steps + 1
                error_state := some ("Execution exceeded maximum steps of " ++
                  toString cfg.max_execution_steps)
                running := false }
        (some ("Execution exceeded maximum steps of " ++
          toString cfg.max_execution_steps)) := by
  unfold execIter
  rw [if_pos hg]
  dsimp only
  rw [if_pos hlim]
  rfl

theorem execIter_index_error (cfg : VMConfig) (prog : Program) (st : VMState)
    (hg : st.running = true ∧ st.program_counter < (prog.instructions.length : Int))
    (hlim : ¬st.execution_steps + 1 ≥ cfg.max_execution_steps)
    (hidx : pyListGet prog.instructions st.program_counter = none) :
    execIter cfg prog st =
      .done { st with
                execution_steps := st.execution_steps + 1
                error_state := some "list index out of range"
                running := false }
        (some "list index out of range") := by
  unfold execIter
  rw [if_pos hg]
  dsimp only
  rw [if_neg hlim, hidx]
  rfl

theorem execIter_halt_py (cfg : VMConfig) (prog : Program) (st : VMState) (inst : Instruction)
    (hg : st.running = true ∧ st.program_counter < (prog.instructions.length : Int))
    (hlim : ¬st.execution_steps + 1 ≥ cfg.max_execution_steps)
    (hins : pyListGet prog.instructions st.program_counter = some inst)
    (hH : inst.opcode = "HALT") :
    execIter cfg prog st =
      .done { st with execution_steps := st.execution_steps + 1, running := false } none := by
  unfold execIter
  rw [if_pos hg]
  dsimp only
  rw [if_neg hlim, hins]
  dsimp only
  rw [if_pos (by simpa using hH)]

theorem execIter_dispatch_cases (cfg : VMConfig) (prog : Program) (st : VMState)
    (inst : Instruction)
    (hg : st.running = true ∧ st.program_counter < (prog.instructions.length : Int))
    (hlim : ¬st.execution_steps + 1 ≥ cfg.max_execution_steps)
    (hins : pyListGet prog.instructions st.program_counter = some inst)
    (hH : ¬inst.opcode = "HALT") :
    (∃ st2, execute_instruction prog.labels
        { st with execution_steps := st.execution_steps + 1 } inst = (st2, none) ∧
      execIter cfg prog st = .next { st2 with program_counter := st2.program_counter + 1 }) ∨
    (∃ st2 e, execute_instruction prog.labels
        { st with execution_steps := st.execution_steps + 1 } inst = (st2, some e) ∧
      execIter cfg prog st =
        .done { st2 with error_state := some e, running := false } (some e)) := by
  have hstep : execIter cfg prog st =
      (match execute_instruction prog.labels
          { st with execution_steps := st.execution_steps + 1 } inst with
       | (st2, some e) => .done { st2 with error_state := some e, running := false } (some e)
       | (st2, none) => .next { st2 with program_counter := st2.program_counter + 1 }) := by
    unfold execIter
    rw [if_pos hg]
    dsimp only
    rw [if_neg hlim, hins]
    dsimp only
    rw [if_neg (by simpa using hH)]
    rcases execute_instruction prog.labels
        { st with execution_steps := st.execution_steps + 1 } inst with ⟨st2, e⟩
    cases e <;> rfl
  rcases hE : execute_instruction prog.labels
      { st with execution_steps := st.execution_steps + 1 } inst with ⟨st2, e⟩
  rw [hE] at hstep
  cases e with
  | none => exact Or.inl ⟨st2, rfl, hstep⟩
  | some e => exact Or.inr ⟨st2, e, rfl, hstep⟩

theorem execute_instruction_congr (labels : List (String × Int)) (st : VMState)
    (i1 i2 : Instruction)
    (hup : pyUpper i1.opcode = pyUpper i2.opcode) (hops : i1.operands = i2.operands) :
    (execute_instruction labels st i1).1 = (execute_instruction labels st i2).1 ∧
    ((execute_instruction labels st i1).2 = none ↔
      (execute_instruction labels st i2).2 = none) := by
  unfold execute_instruction
  have hgo : get_opcode i1.opcode = get_opcode i2.opcode := by
    unfold get_opcode
    rw [hup]
  rw [hgo, hops]
  cases get_opcode i2.opcode <;> dsimp only
  · exact ⟨rfl, by simp⟩
  · rename_i op
    cases resolveArgs labels st.registers i2.operands <;> dsimp only
    · exact ⟨rfl, by simp⟩
    · rename_i args
      cases hval : validate_args op args
      · rw [if_pos (by decide : (!false) = true), if_pos (by decide : (!false) = true)]
        exact ⟨rfl, by simp⟩
      · rw [if_neg (by decide : ¬((!true) = true)), if_neg (by decide : ¬((!true) = true))]
        rcases hOE : opExec op args
            ⟨st.data_stack, st.control_stack, st.memory, st.program_counter⟩ with ⟨c', e⟩
        cases e <;> exact ⟨rfl, Iff.rfl⟩

theorem forall2_get? {α β : Type} {R : α → β → Prop} (l1 : List α) (l2 : List β)
    (h : List.Forall₂ R l1 l2) : ∀ n : Nat,
      (l1.get? n = none ∧ l2.get? n = none) ∨
      ∃ a b, l1.get? n = some a ∧ l2.get? n = some b ∧ R a b := by
  induction h with
  | nil => intro n; left; simp
  | cons hR hrest ih =>
    intro n
    cases n with
    | zero => right; exact ⟨_, _, rfl, rfl, hR⟩
    | succ m => simpa using ih m

theorem pyListGet_rel {R : Instruction → Instruction → Prop}
    (l1 l2 : List Instruction) (hf : List.Forall₂ R l1 l2) (i : Int) :
    (pyListGet l1 i = none ∧ pyListGet l2 i = none) ∨
    ∃ a b, pyListGet l1 i = some a ∧ pyListGet l2 i = some b ∧ R a b := by
  have hlen := hf.length_eq
  unfold pyListGet
  rw [hlen]
  by_cases h0 : 0 ≤ i
  · rw [if_pos h0, if_pos h0]
    exact forall2_get? l1 l2 hf i.toNat
  · rw [if_neg h0, if_neg h0]
    by_cases h1 : -(l2.length : Int) ≤ i
    · rw [if_pos h1, if_pos h1]
      exact forall2_get? l1 l2 hf ((l2.length : Int) + i).toNat
    · rw [if_neg h1, if_neg h1]
      exact Or.inl ⟨rfl, rfl⟩

theorem execIter_congr (cfg : VMConfig) (p1 p2 : Program) (st : VMState)
    (h : progCaseEquiv p1 p2) :
    (∃ s, execIter cfg p1 st = .next s ∧ execIter cfg p2 st = .next s) ∨
    (∃ s1 s2 e1 e2, execIter cfg p1 st = .done s1 e1 ∧ execIter cfg p2 st = .done s2 e2 ∧
      eraseErr s1 = eraseErr s2 ∧ (e1 = none ↔ e2 = none)) := by
  have hlen : p1.instructions.length = p2.instructions.length := h.2.length_eq
  by_cases hg : st.running = true ∧ st.program_counter < (p1.instructions.length : Int)
  case neg =>
    exact Or.inr ⟨st, st, none, none, execIter_guard_false cfg p1 st hg,
      execIter_guard_false cfg p2 st (by rw [← hlen]; exact hg), rfl, Iff.rfl⟩
  case pos =>
    have hg2 : st.running = true ∧ st.program_counter < (p2.instructions.length : Int) := by
      rw [← hlen]
      exact hg
    by_cases hlim : st.execution_steps + 1 ≥ cfg.max_execution_steps
    · exact Or.inr ⟨_, _, _, _, execIter_step_limit cfg p1 st hg hlim,
        execIter_step_limit cfg p2 st hg2 hlim, rfl, Iff.rfl⟩
    · rcases pyListGet_rel p1.instructions p2.instructions h.2 st.program_counter with
        ⟨hi1, hi2⟩ | ⟨a, b, hi1, hi2, hR⟩
      · exact Or.inr ⟨_, _, _, _, execIter_index_error cfg p1 st hg hlim hi1,
          execIter_index_error cfg p2 st hg2 hlim hi2, rfl, Iff.rfl⟩
      · obtain ⟨hup, hhalt, hops⟩ := hR
        by_cases hH : a.opcode = "HALT"
        · exact Or.inr ⟨_, _, _, _,
            execIter_halt_py cfg p1 st a hg hlim hi1 hH,
            execIter_halt_py cfg p2 st b hg2 hlim hi2 (hhalt.mp hH), rfl, Iff.rfl⟩
        · have hH2 : ¬b.opcode = "HALT" := fun hb => hH (hhalt.mpr hb)
          have hc := execute_instruction_congr p1.labels
            { st with execution_steps := st.execution_steps + 1 } a b hup hops
          rw [h.1] at hc
          rcases execIter_dispatch_cases cfg p1 st a hg hlim hi1 hH with
            ⟨st2, hE1, hIt1⟩ | ⟨st2, e, hE1, hIt1⟩ <;>
            rcases execIter_dispatch_cases cfg p2 st b hg2 hlim hi2 hH2 with
              ⟨st2', hE2, hIt2⟩ | ⟨st2', e', hE2, hIt2⟩
          · rw [h.1] at hE1
            have hsame : st2 = st2' := by
              have := hc.1
              rw [hE1, hE2] at this
              exact this
            subst hsame
            exact Or.inl ⟨_, hIt1, hIt2⟩
          · rw [h.1] at hE1
            rw [hE1, hE2] at hc
            simp at hc
          · rw [h.1] at hE1
            rw [hE1, hE2] at hc
            simp at hc
          · rw [h.1] at hE1
            have hsame : st2 = st2' := by
              have := hc.1
              rw [hE1, hE2] at this
              exact this
            subst hsame
            exact Or.inr ⟨_, _, _, _, hIt1, hIt2, rfl, by simp⟩

theorem execLoopAux_case_congr (cfg : VMConfig) (p1 p2 : Program)
    (h : progCaseEquiv p1 p2) :
    ∀ (fuel : Nat) (st : VMState),
      eraseErr (execLoopAux cfg p1 fuel st).1 = eraseErr (execLoopAux cfg p2 fuel st).1 ∧
      ((execLoopAux cfg p1 fuel st).2 = none ↔ (execLoopAux cfg p2 fuel st).2 = none) := by
  intro fuel
  induction fuel with
  | zero => intro st; exact ⟨rfl, Iff.rfl⟩
  | succ f ih =>
    intro st
    rcases execIter_congr cfg p1 p2 st h with ⟨s, h1, h2⟩ | ⟨s1, s2, e1, e2, h1, h2, hs, he⟩
    · simp only [execLoopAux, h1, h2]
      exact ih s
    · simp only [execLoopAux, h1, h2]
      exact ⟨hs, he⟩

theorem load_check_none_iff (p1 p2 : Program) (h : progCaseEquiv p1 p2) :
    (load_check p1 = none ↔ load_check p2 = none) := by
  unfold load_check
  simp only [Option.map_eq_none', List.find?_eq_none, Bool.not_eq_true]
  constructor
  · intro h1 b hb
    obtain ⟨n, hn⟩ := List.mem_iff_get?.mp hb
    rcases forall2_get? p1.instructions p2.instructions h.2 n with ⟨q1, q2⟩ | ⟨a, b', ha, hb', hR⟩
    · rw [q2] at hn; cases hn
    · rw [hb'] at hn
      injection hn with hn
      subst hn
      have := h1 a (List.get?_mem ha)
      have hgo : get_opcode a.opcode = get_opcode b'.opcode := by
        unfold get_opcode
        rw [hR.1]
      rw [← hgo]
      exact this
  · intro h2 a ha
    obtain ⟨n, hn⟩ := List.mem_iff_get?.mp ha
    rcases forall2_get? p1.instructions p2.instructions h.2 n with ⟨q1, q2⟩ | ⟨a', b, ha', hb, hR⟩
    · rw [q1] at hn; cases hn
    · rw [ha'] at hn
      injection hn with hn
      subst hn
      have := h2 b (List.get?_mem hb)
      have hgo : get_opcode a'.opcode = get_opcode b.opcode := by
        unfold get_opcode
        rw [hR.1]
      rw [hgo]
      exact this

/-! ### Lexer and parser resolution examples

Concrete consequences of Lark's lexing and conflict-resolution rules as
modelled above: ignored whitespace may separate `#` from its number;
`SIGNED_NUMBER` accepts a `+` sign and float forms (the latter fail in
the transformer's `int()`); a register-shaped word lexes as a `WORD` and
becomes a `label_ref`; after an instruction a word is shifted as an
operand, so an instruction-then-label source is a parse error and a
following instruction is swallowed as operands. -/

theorem parse_ws_before_number :
    parse "PUSH # 5" = .ok ⟨[⟨"PUSH", [.immediate 5]⟩], []⟩ := rfl

theorem parse_plus_signed_immediate :
    parse "PUSH #+5" = .ok ⟨[⟨"PUSH", [.immediate 5]⟩], []⟩ := rfl

theorem parse_float_immediate_fails_int :
    parse "PUSH #5.5" =
      .error "Failed to parse source: invalid literal for int() with base 10: '5.5'" := rfl

theorem parse_register_shaped_word_is_label_ref :
    parse "PUSH r1" = .ok ⟨[⟨"PUSH", [.labelRef "r1"]⟩], []⟩ := rfl

theorem parse_label_after_instruction_rejected :
    parse "HALT\nfoo: HALT" = .error "Failed to parse source: Unexpected token" := rfl

theorem parse_word_after_instruction_shifted :
    parse "HALT\nPUSH #1" =
      .ok ⟨[⟨"HALT", [.labelRef "PUSH", .immediate 1]⟩], []⟩ := rfl

/-! ### Claim theorems -/

/-- C1 (`code_bug`): the specification requires every push (PUSH, DUP,
OVER, CALL's return-address push) to respect `max_stack_size`, and the
VM's own `push_data` helper enforces exactly that; but the dispatched
opcodes append to the context stacks directly, so executing two PUSHes
under `max_stack_size = 1` completes without any error and leaves the
data stack holding 2 values, while `push_data` on the same full stack
would have raised. -/
theorem c1_stack_bound_not_enforced_in_dispatch :
    (execute { max_stack_size := 1 }
        ⟨[⟨"PUSH", [.immediate 1]⟩, ⟨"PUSH", [.immediate 2]⟩, ⟨"HALT", []⟩], []⟩
        {}).1.data_stack.length = 2 ∧
    (execute { max_stack_size := 1 }
        ⟨[⟨"PUSH", [.immediate 1]⟩, ⟨"PUSH", [.immediate 2]⟩, ⟨"HALT", []⟩], []⟩
        {}).2 = none ∧
    (push_data { max_stack_size := 1 } { data_stack := [Value.int 1] } (Value.int 2)).2 =
      some "Data stack push would exceed maximum stack size of 1" :=
  ⟨rfl, rfl, rfl⟩

/-- C2 (`code_bug`): the specification requires every data-stack push
and memory store to update `memory_usage` (8 bytes for an int), and the
VM's `push_data`/`set_memory` helpers do exactly that; but the
dispatched opcodes bypass them, so executing `PUSH #42; STORE @100;
HALT` stores the value yet leaves `memory_usage = 0`, while the helpers
on the same operations would each have added 8. -/
theorem c2_memory_accounting_not_performed_in_dispatch :
    (execute {} ⟨[⟨"PUSH", [.immediate 42]⟩, ⟨"STORE", [.address "100"]⟩, ⟨"HALT", []⟩], []⟩
        {}).1.memory_usage = 0 ∧
    (execute {} ⟨[⟨"PUSH", [.immediate 42]⟩, ⟨"STORE", [.address "100"]⟩, ⟨"HALT", []⟩], []⟩
        {}).1.memory = [(Value.str "100", Value.int 42)] ∧
    (execute {} ⟨[⟨"PUSH", [.immediate 42]⟩, ⟨"STORE", [.address "100"]⟩, ⟨"HALT", []⟩], []⟩
        {}).2 = none ∧
    (push_data {} {} (Value.int 42)).1.memory_usage = 8 ∧
    (set_memory {} {} "100" (Value.int 42)).1.memory_usage = 8 :=
  ⟨rfl, rfl, rfl, rfl, rfl⟩

theorem execLoop_push_run (cfg : VMConfig) (prog : Program) (c : Int) :
    ∀ (j : Nat) (st : VMState), st.running = true → 0 ≤ st.program_counter →
      st.execution_steps + (j : Int) + 1 < cfg.max_execution_steps →
      (∀ i : Nat, i < j →
        prog.instructions.get? (st.program_counter.toNat + i) =
          some ⟨"PUSH", [.immediate c]⟩) →
      prog.instructions.get? (st.program_counter.toNat + j) = some ⟨"HALT", []⟩ →
      execLoop cfg prog st =
        ({ st with data_stack := List.replicate j (Value.int c) ++ st.data_stack,
                   program_counter := st.program_counter + (j : Int),
                   running := false,
                   execution_steps := st.execution_steps + (j : Int) + 1 }, none) := by
  intro j
  induction j with
  | zero =>
    intro st hrun hp hsteps _ hhalt
    have hhalt0 : prog.instructions.get? st.program_counter.toNat = some ⟨"HALT", []⟩ := by
      simpa using hhalt
    have hlen : st.program_counter.toNat < prog.instructions.length :=
      (List.get?_eq_some.mp hhalt0).1
    rw [execLoop_done cfg prog st _ none
      (execIter_halt cfg prog st ⟨"HALT", []⟩ hrun hp (by omega) (by omega) hhalt0 rfl)]
    simp

  | succ n ih =>
    intro st hrun hp hsteps hpush hhalt
    have hp0 : prog.instructions.get? st.program_counter.toNat =
        some ⟨"PUSH", [.immediate c]⟩ := by
      simpa using hpush 0 (by omega)
    have hlen : st.program_counter.toNat < prog.instructions.length :=
      (List.get?_eq_some.mp hp0).1
    have hiter : execIter cfg prog st = .next
        { st with data_stack := Value.int c :: st.data_stack,
                  program_counter := st.program_counter + 1,
                  execution_steps := st.execution_steps + 1 } := by
      rw [execIter_dispatch cfg prog st ⟨"PUSH", [.immediate c]⟩ hrun hp (by omega)
        (by omega) hp0 (by simp),
        execute_instruction_push_imm prog.labels
          { st with execution_steps := st.execution_steps + 1 } c]
    rw [execLoop_next_of_iter cfg prog st _ hiter]
    rw [ih { st with data_stack := Value.int c :: st.data_stack,
                     program_counter := st.program_counter + 1,
                     execution_steps := st.execution_steps + 1 }
      hrun (by dsimp only; omega) (by dsimp only; push_cast at hsteps ⊢; omega)
      (by
        intro i hi
        dsimp only
        have hidx : (st.program_counter + 1).toNat + i =
            st.program_counter.toNat + (i + 1) := by omega
        rw [hidx]
        exact hpush (i + 1) (by omega))
      (by
        dsimp only
        have hidx : (st.program_counter + 1).toNat + n =
            st.program_counter.toNat + (n + 1) := by omega
        rw [hidx]
        exact hhalt)]
    dsimp only
    rw [Prod.mk.injEq]
    refine ⟨?_, rfl⟩
    rw [VMState.mk.injEq]
    refine ⟨?_, rfl, rfl, rfl, ?_, rfl, rfl, ?_, rfl⟩
    · rw [show (List.replicate (n + 1) (Value.int c) : List Value) =
        List.replicate n (Value.int c) ++ [Value.int c] from List.replicate_succ' ..,
        List.append_assoc]
      rfl
    · push_cast
      omega
    · push_cast
      omega

/-- C4, amended: `execution_steps` increases by exactly 1 per fetch-loop
iteration, including the one whose fetch detects HALT (the step counter
is incremented before the HALT special case), so a linear program of `k`
PUSH instructions followed by HALT at index `k` completes `execute` with
`execution_steps = k + 1`, halted at `program_counter = k`. -/
theorem c4_amended_linear_halt_steps (cfg : VMConfig) (k : Nat) (c : Int)
    (hsteps : (k : Int) + 1 < cfg.max_execution_steps) :
    execute cfg ⟨List.replicate k ⟨"PUSH", [.immediate c]⟩ ++ [⟨"HALT", []⟩], []⟩ {} =
      ({ data_stack := List.replicate k (Value.int c),
         program_counter := (k : Int),
         running := false,
         execution_steps := (k : Int) + 1 }, none) := by
  unfold execute
  have hload : load_check ⟨List.replicate k ⟨"PUSH", [.immediate c]⟩ ++ [⟨"HALT", []⟩], []⟩ =
      none := by
    unfold load_check
    rw [Option.map_eq_none', List.find?_eq_none]
    intro inst hmem
    rcases List.mem_append.mp hmem with hmem | hmem
    · rw [List.eq_of_mem_replicate hmem]
      simp [get_opcode]
      decide
    · rw [List.mem_singleton.mp hmem]
      simp [get_opcode]
      decide
  rw [hload]
  dsimp only
  rw [execLoop_push_run cfg _ c k { program_counter := 0, running := true, error_state := none }
    rfl (by decide) (by dsimp only; omega)
    (by
      intro i hi
      dsimp only
      have h0 : (0 : Int).toNat + i = i := by omega
      rw [h0, List.get?_eq_getElem?]
      simp [List.getElem?_append, hi]
    )
    (by
      dsimp only
      have h0 : (0 : Int).toNat + k = k := by omega
      rw [h0, List.get?_eq_getElem?, List.getElem?_append_right (by simp)]
      simp)]
  simp

/-- Witness for C4's amended theorem at `k = 2`, `c = 7` under the
default configuration. -/
theorem c4_amended_witness :
    ((2 : Nat) : Int) + 1 < ({} : VMConfig).max_execution_steps ∧
    execute {} ⟨List.replicate 2 ⟨"PUSH", [.immediate 7]⟩ ++ [⟨"HALT", []⟩], []⟩ {} =
      ({ data_stack := List.replicate 2 (Value.int 7),
         program_counter := ((2 : Nat) : Int),
         running := false,
         execution_steps := ((2 : Nat) : Int) + 1 }, none) :=
  ⟨by decide, c4_amended_linear_halt_steps {} 2 7 (by decide)⟩

/-- C5 (confirmed): dispatching CALL (with its operand resolved to the
integer target `t`) pushes `program_counter + 1` onto the control stack
and, after the post-dispatch increment, the next loop head is exactly at
`t`; dispatching RET pops the most recently pushed return address
(LIFO order, the head of the control stack) and resumes execution
exactly at that address - the instruction immediately after the CALL
that pushed it - consuming it exactly once. -/
theorem c5_call_ret_control_transfer (cfg : VMConfig) (prog : Program) (st : VMState)
    (hrun : st.running = true) (hp : 0 ≤ st.program_counter)
    (hsteps : st.execution_steps + 1 < cfg.max_execution_steps) :
    (∀ ops t, prog.instructions.get? st.program_counter.toNat = some ⟨"CALL", ops⟩ →
      resolveArgs prog.labels st.registers ops = .ok [Value.int t] →
      execIter cfg prog st = .next { st with
        execution_steps := st.execution_steps + 1,
        control_stack := (st.program_counter + 1) :: st.control_stack,
        program_counter := t }) ∧
    (∀ r rest, prog.instructions.get? st.program_counter.toNat = some ⟨"RET", []⟩ →
      st.control_stack = r :: rest →
      execIter cfg prog st = .next { st with
        execution_steps := st.execution_steps + 1,
        control_stack := rest,
        program_counter := r }) := by
  constructor
  · intro ops t hins hres
    have hlen : st.program_counter.toNat < prog.instructions.length :=
      (List.get?_eq_some.mp hins).1
    rw [execIter_dispatch cfg prog st ⟨"CALL", ops⟩ hrun hp (by omega) hsteps hins (by simp)]
    rw [execute_instruction_call prog.labels { st with execution_steps := st.execution_steps + 1 } ops t hres]
    dsimp only
    rw [Int.sub_add_cancel]
  · intro r rest hins hcs
    have hlen : st.program_counter.toNat < prog.instructions.length :=
      (List.get?_eq_some.mp hins).1
    rw [execIter_dispatch cfg prog st ⟨"RET", []⟩ hrun hp (by omega) hsteps hins (by simp)]
    rw [execute_instruction_ret prog.labels { st with execution_steps := st.execution_steps + 1 } r rest hcs]
    dsimp only
    rw [Int.sub_add_cancel]

/-- Witness for C5 at the program `CALL fn; HALT; fn: RET` (label `fn`
at index 2): the CALL dispatch pushes return address 1 and lands at 2;
the RET dispatch pops that address and lands at 1 - the instruction
after the CALL. -/
theorem c5_call_ret_witness :
    execIter {} ⟨[⟨"CALL", [.labelRef "fn"]⟩, ⟨"HALT", []⟩, ⟨"RET", []⟩], [("fn", 2)]⟩
        { running := true } =
      .next { running := true, execution_steps := 1, control_stack := [1],
              program_counter := 2 } ∧
    execIter {} ⟨[⟨"CALL", [.labelRef "fn"]⟩, ⟨"HALT", []⟩, ⟨"RET", []⟩], [("fn", 2)]⟩
        { running := true, execution_steps := 1, control_stack := [1],
          program_counter := 2 } =
      .next { running := true, execution_steps := 2, control_stack := [],
              program_counter := 1 } := by
  constructor
  · exact (c5_call_ret_control_transfer {}
      ⟨[⟨"CALL", [.labelRef "fn"]⟩, ⟨"HALT", []⟩, ⟨"RET", []⟩], [("fn", 2)]⟩
      { running := true } rfl (by decide) (by decide)).1 [.labelRef "fn"] 2 rfl rfl
  · exact (c5_call_ret_control_transfer {}
      ⟨[⟨"CALL", [.labelRef "fn"]⟩, ⟨"HALT", []⟩, ⟨"RET", []⟩], [("fn", 2)]⟩
      { running := true, execution_steps := 1, control_stack := [1],
        program_counter := 2 } rfl (by decide) (by decide)).2 1 [] rfl rfl

/-- C6, counterexample: a source that defines the label `x` twice parses
successfully (no ParseError); the transformer silently keeps one
binding. -/
theorem c6_counterexample_duplicate_label_parses :
    parse "x:\nx:\nHALT" = .ok ⟨[⟨"HALT", []⟩], [("x", 0)]⟩ := rfl

/-- C6, amended: `parse` never rejects duplicate labels; in the
transformer, a later definition of a label name silently overwrites any
earlier one, so the resulting label map binds the name to the
instruction count current at its last definition. -/
theorem c6_amended_last_label_definition_wins (s1 s2 : List Statement) (n : String)
    (h : Statement.label n ∉ s2) :
    dictGet (transformProgram (s1 ++ Statement.label n :: s2)).labels n =
      some ((stmtInstrs s1).length : Int) := by
  unfold transformProgram
  rw [List.foldl_append, List.foldl_cons]
  rw [foldl_transformStep_labels_of_not_mem s2 n h]
  have h1 := foldl_transformStep_instrs s1 ([], [])
  simp only [List.nil_append] at h1
  show dictGet (transformStep (s1.foldl transformStep ([], [])) (Statement.label n)).2 n = _
  rw [transformStep, h1]
  exact dictGet_dictSet_self _ _ _

/-- Witness for C6's amended theorem: with `x` bound at instruction 0
before one instruction and bound again after it, parsing yields `x ↦ 1`:
the last definition wins and no error is raised. -/
theorem c6_amended_witness :
    Statement.label "x" ∉ [Statement.instr ⟨"HALT", []⟩] ∧
    dictGet (transformProgram ([Statement.label "x", Statement.instr ⟨"PUSH", [.immediate 1]⟩] ++
        Statement.label "x" :: [Statement.instr ⟨"HALT", []⟩])).labels "x" =
      some ((stmtInstrs [Statement.label "x", Statement.instr ⟨"PUSH", [.immediate 1]⟩]).length : Int) :=
  ⟨by simp, c6_amended_last_label_definition_wins
    [Statement.label "x", Statement.instr ⟨"PUSH", [.immediate 1]⟩]
    [Statement.instr ⟨"HALT", []⟩] "x" (by simp)⟩

/-- C7, counterexample: `run` does not propagate runtime errors
unchanged: `POP` on an empty stack raises `"Data stack underflow"`
inside the VM, but `run` re-raises it as a RuntimeError with the
different message `"Execution failed: Data stack underflow"`. -/
theorem c7_counterexample_runtime_error_rewrapped :
    Sovereign.run "POP" =
      .error (.runtimeError "Execution failed: Data stack underflow") ∧
    (execute {} ⟨[⟨"POP", []⟩], []⟩ {}).2 = some "Data stack underflow" ∧
    "Execution failed: Data stack underflow" ≠ "Data stack underflow" :=
  ⟨rfl, rfl, by decide⟩

/-- C7, amended: `run(source)` parses and then calls `vm.execute`; a
ParseError propagates to the caller unchanged, but an execution
exception with message `e` is re-raised as a RuntimeError whose message
is `"Execution failed: " ++ e`, not unchanged. -/
theorem c7_amended_run_propagation (source : String) :
    (∀ m, parse source = .error m →
      Sovereign.run source = .error (.parseError m)) ∧
    (∀ prog st e, parse source = .ok prog → execute {} prog {} = (st, some e) →
      Sovereign.run source = .error (.runtimeError ("Execution failed: " ++ e))) ∧
    (∀ prog st, parse source = .ok prog → execute {} prog {} = (st, none) →
      Sovereign.run source = .ok st) := by
  refine ⟨?_, ?_, ?_⟩
  · intro m hm
    simp [Sovereign.run, hm]
  · intro prog st e hp he
    simp [Sovereign.run, hp, he]
  · intro prog st hp he
    simp [Sovereign.run, hp, he]

/-- Witness for C7's amended theorem at source `"POP"`. -/
theorem c7_amended_witness :
    Sovereign.run "POP" =
      .error (.runtimeError ("Execution failed: " ++ "Data stack underflow")) :=
  (c7_amended_run_propagation "POP").2.1 ⟨[⟨"POP", []⟩], []⟩
    { program_counter := 0, running := false,
      error_state := some "Data stack underflow", execution_steps := 1 }
    "Data stack underflow" rfl rfl

/-- C9, counterexample: the operand round-trip fails for a string
literal containing a double quote — `StringLiteral('"')` prints as
`"""`, which is not parseable as an operand — and for every register:
`Register(5)` prints as `r5`, which the lexer hands to the `label_ref`
terminal (it shadows the dead `register` terminal), so parsing yields
the different operand `LabelRef("r5")`. -/
theorem c9_counterexample_quote_string_literal :
    operandStr (.stringLiteral "\"") = "\"\"\"" ∧
    parseOperandText "\"\"\"" = none ∧
    operandStr (.register 5) = "r5" ∧
    parseOperandText "r5" = some (.labelRef "r5") ∧
    Operand.labelRef "r5" ≠ Operand.register 5 :=
  ⟨rfl, rfl, by
      have h5 : natDecimalRev 5 = ['5'] := by
        unfold natDecimalRev
        rw [dif_pos (by norm_num)]
        rfl
      have htn : ((5 : Int)).toNat = 5 := rfl
      unfold operandStr pyIntStr natDecimal
      dsimp only
      rw [if_neg (by norm_num), htn, h5]
      rfl,
    rfl, by decide⟩

/-- C3, counterexample: with a jump target supplied as an integer
immediate, the program counter can be negative at the head of a
fetch-loop iteration.  `JMP #-1; HALT` reaches the loop head with
`program_counter = -1` (Python then indexes the instruction list from
its end), and execution completes without error with the terminal
program counter still `-1`, violating `pc ∈ [0, len]`. -/
theorem c3_counterexample_negative_pc_at_loop_head :
    (loopHeads {} ⟨[⟨"JMP", [.immediate (-1)]⟩, ⟨"HALT", []⟩], []⟩ 3
        { running := true }).map (·.program_counter) = [0, -1] ∧
    execute {} ⟨[⟨"JMP", [.immediate (-1)]⟩, ⟨"HALT", []⟩], []⟩ {} =
      execLoop {} ⟨[⟨"JMP", [.immediate (-1)]⟩, ⟨"HALT", []⟩], []⟩ { running := true } ∧
    (execute {} ⟨[⟨"JMP", [.immediate (-1)]⟩, ⟨"HALT", []⟩], []⟩ {}).1.program_counter = -1 ∧
    (execute {} ⟨[⟨"JMP", [.immediate (-1)]⟩, ⟨"HALT", []⟩], []⟩ {}).2 = none ∧
    ¬(0 ≤ (-1 : Int)) :=
  ⟨rfl, rfl, rfl, rfl, by decide⟩

/-- C4, counterexample: the fetch that detects HALT is counted:
`_check_execution_limit` increments `execution_steps` before the HALT
special case runs, so the program `HALT` (first reachable HALT at index
`k = 0`) completes with `execution_steps = 1`, not `k = 0`. -/
theorem c4_counterexample_halt_fetch_counted :
    (execute {} ⟨[⟨"HALT", []⟩], []⟩ {}).1.execution_steps = 1 ∧
    (execute {} ⟨[⟨"HALT", []⟩], []⟩ {}).2 = none ∧
    (1 : Int) ≠ 0 :=
  ⟨rfl, rfl, by decide⟩

/-- C8, counterexample: opcode lookup is case-insensitive, but the fetch
loop's HALT special case compares the opcode string to `"HALT"` exactly.
A lowercase `halt` therefore dispatches `HaltOp.execute` (a no-op) and
execution continues: `halt` terminates by running off the end with
`running = true`, while `HALT` stops with `running = false`; and with an
instruction after it, `halt; PUSH #1` even executes the PUSH, so the
terminal data stacks differ too. -/
theorem c8_counterexample_lowercase_halt :
    parse "halt" = .ok ⟨[⟨"halt", []⟩], []⟩ ∧
    parse "HALT" = .ok ⟨[⟨"HALT", []⟩], []⟩ ∧
    (execute {} ⟨[⟨"halt", []⟩], []⟩ {}).1.running = true ∧
    (execute {} ⟨[⟨"HALT", []⟩], []⟩ {}).1.running = false ∧
    (execute {} ⟨[⟨"halt", []⟩, ⟨"PUSH", [.immediate 1]⟩], []⟩ {}).1.data_stack =
      [Value.int 1] ∧
    (execute {} ⟨[⟨"HALT", []⟩, ⟨"PUSH", [.immediate 1]⟩], []⟩ {}).1.data_stack = [] :=
  ⟨rfl, rfl, rfl, rfl, rfl, rfl⟩

/-- C8 (`corrected`), amended statement: dispatch through the opcode
registry IS case-insensitive.  For two programs with the same labels whose
instructions agree up to opcode case — and agree exactly on whether each
opcode is the literal string `"HALT"`, since the fetch loop's HALT check
is the one case-sensitive comparison — `execute` produces the same
terminal state (up to the `error_state` message text, which embeds the
original spelling) and raises an error in one run iff in the other. -/
theorem c8_amended_case_insensitive_dispatch (cfg : VMConfig) (p1 p2 : Program)
    (st0 : VMState) (h : progCaseEquiv p1 p2) :
    eraseErr (execute cfg p1 st0).1 = eraseErr (execute cfg p2 st0).1 ∧
    ((execute cfg p1 st0).2 = none ↔ (execute cfg p2 st0).2 = none) := by
  unfold execute
  rcases hl1 : load_check p1 with _ | e1 <;> rcases hl2 : load_check p2 with _ | e2
  · dsimp only
    unfold execLoop
    exact execLoopAux_case_congr cfg p1 p2 h _ _
  · have hn2 := (load_check_none_iff p1 p2 h).mp hl1
    simp [hn2] at hl2
  · have hn1 := (load_check_none_iff p1 p2 h).mpr hl2
    simp [hn1] at hl1
  · exact ⟨rfl, by simp⟩

/-- Witness for the C8 amended theorem: `push #1; HALT` versus
`PUSH #1; HALT`. -/
theorem c8_amended_witness :
    progCaseEquiv ⟨[⟨"push", [.immediate 1]⟩, ⟨"HALT", []⟩], []⟩
        ⟨[⟨"PUSH", [.immediate 1]⟩, ⟨"HALT", []⟩], []⟩ ∧
    (eraseErr (execute {} ⟨[⟨"push", [.immediate 1]⟩, ⟨"HALT", []⟩], []⟩ {}).1 =
        eraseErr (execute {} ⟨[⟨"PUSH", [.immediate 1]⟩, ⟨"HALT", []⟩], []⟩ {}).1 ∧
      ((execute {} ⟨[⟨"push", [.immediate 1]⟩, ⟨"HALT", []⟩], []⟩ {}).2 = none ↔
        (execute {} ⟨[⟨"PUSH", [.immediate 1]⟩, ⟨"HALT", []⟩], []⟩ {}).2 = none)) := by
  have hpce : progCaseEquiv ⟨[⟨"push", [.immediate 1]⟩, ⟨"HALT", []⟩], []⟩
      ⟨[⟨"PUSH", [.immediate 1]⟩, ⟨"HALT", []⟩], []⟩ :=
    ⟨rfl, .cons ⟨by decide, by decide, rfl⟩ (.cons ⟨by decide, Iff.rfl, rfl⟩ .nil)⟩
  exact ⟨hpce, c8_amended_case_insensitive_dispatch {} _ _ {} hpce⟩

theorem decDigitChar_isDigit (d : Nat) (h : d < 10) : (decDigitChar d).isDigit = true := by
  interval_cases d <;> decide

theorem decDigitChar_val (d : Nat) (h : d < 10) : (decDigitChar d).toNat - 48 = d := by
  interval_cases d <;> decide

theorem natDecimalRev_ne_nil (n : Nat) : natDecimalRev n ≠ [] := by
  unfold natDecimalRev
  split <;> simp

theorem natDecimalRev_all_digits (n : Nat) : (natDecimalRev n).all Char.isDigit = true := by
  induction n using Nat.strong_induction_on with
  | _ n ih =>
    unfold natDecimalRev
    split
    · rename_i h
      simp [decDigitChar_isDigit n h]
    · rename_i h
      simp only [List.all_cons, Bool.and_eq_true]
      exact ⟨decDigitChar_isDigit _ (Nat.mod_lt _ (by omega)),
        ih (n / 10) (Nat.div_lt_self (by omega) (by omega))⟩

theorem foldl_natDecimalRev (n : Nat) :
    ∀ acc : Nat,
      ((natDecimalRev n).reverse).foldl (fun acc c => 10 * acc + (c.toNat - 48)) acc =
        acc * 10 ^ (natDecimalRev n).length + n := by
  induction n using Nat.strong_induction_on with
  | _ n ih =>
    intro acc
    unfold natDecimalRev
    split
    · rename_i h
      simp only [List.reverse_singleton, List.foldl_cons, List.foldl_nil, List.length_singleton,
        pow_one]
      rw [decDigitChar_val n h]
      ring
    · rename_i h
      rw [List.reverse_cons, List.foldl_append,
        ih (n / 10) (Nat.div_lt_self (by omega) (by omega)) acc]
      simp only [List.foldl_cons, List.foldl_nil, List.length_cons]
      rw [decDigitChar_val _ (Nat.mod_lt _ (by omega)), pow_succ]
      have hdm := Nat.div_add_mod n 10
      generalize (10 : Nat) ^ (natDecimalRev (n / 10)).length = x
      ring_nf
      omega

theorem natOfDigits_natDecimalRev_reverse (n : Nat) :
    natOfDigits (natDecimalRev n).reverse = n := by
  unfold natOfDigits
  rw [foldl_natDecimalRev n 0]
  simp

theorem scanStringAux_append_quote (cs : List Char)
    (h : ∀ c ∈ cs, c ≠ '"' ∧ c ≠ '\\' ∧ c ≠ '\n') :
    scanStringAux (cs ++ ['"']) = some (cs, []) := by
  induction cs with
  | nil => rfl
  | cons c rest ih =>
    obtain ⟨h1, h2, h3⟩ := h c (by simp)
    rw [List.cons_append, scanStringAux.eq_def]
    dsimp only
    rw [if_neg h1, if_neg h2, if_neg h3,
      ih (fun c2 hc2 => h c2 (by simp [hc2]))]
    rfl

theorem isLabelStart_not_special (c : Char) (h : isLabelStart c = true) :
    c ≠ '#' ∧ c ≠ '@' ∧ c ≠ '"' := by
  refine ⟨?_, ?_, ?_⟩ <;> rintro rfl <;> simp [isLabelStart] at h

/-- C9, amended: for every operand in the `roundTrippable` class - all
immediates, addresses holding a non-empty hex string, string literals
without quote/backslash/newline, and label references matching the label
regex `[a-z_][a-z0-9_]*` (register-shaped or not) - parsing the textual
form produced by the operand's to-string yields an operand equal to the
original.  Registers are excluded: their printed form parses back as a
label reference (see the counterexample). -/
theorem c9_amended_round_trip (o : Operand) (h : roundTrippable o) :
    parseOperandText (operandStr o) = some o := by
  cases o with
  | register n => exact False.elim h
  | immediate v =>
    by_cases hv : v < 0
    · have hdata : (operandStr (.immediate v)).data =
          '#' :: '-' :: (natDecimalRev v.natAbs).reverse := by
        simp [operandStr, pyIntStr, hv, natDecimal]
      unfold parseOperandText
      rw [hdata]
      dsimp only
      rw [if_pos rfl]
      rw [if_pos rfl]
      rw [if_pos ⟨by simpa using natDecimalRev_ne_nil v.natAbs,
        by simpa using natDecimalRev_all_digits v.natAbs⟩]
      rw [natOfDigits_natDecimalRev_reverse]
      congr 1
      rw [Operand.immediate.injEq]
      omega
    · have hdata : (operandStr (.immediate v)).data =
          '#' :: (natDecimalRev v.toNat).reverse := by
        simp [operandStr, pyIntStr, hv, natDecimal]
      obtain ⟨d, ds, hds⟩ : ∃ d ds, (natDecimalRev v.toNat).reverse = d :: ds := by
        rcases hrev : (natDecimalRev v.toNat).reverse with _ | ⟨d, ds⟩
        · exact absurd (by simpa using hrev) (natDecimalRev_ne_nil v.toNat)
        · exact ⟨d, ds, rfl⟩
      have hall : (d :: ds).all Char.isDigit = true := by
        rw [← hds]
        simpa using natDecimalRev_all_digits v.toNat
      have hd : d ≠ '-' := by
        intro hd
        subst hd
        simp only [List.all_cons, Bool.and_eq_true] at hall
        exact absurd hall.1 (by decide)
      unfold parseOperandText
      rw [hdata, hds]
      dsimp only
      rw [if_pos rfl]
      rw [if_neg hd]
      rw [if_pos hall]
      rw [← hds, natOfDigits_natDecimalRev_reverse]
      congr 1
      rw [Operand.immediate.injEq]
      omega
  | address s =>
    obtain ⟨hne, hall⟩ : s.data ≠ [] ∧ s.data.all isHexChar = true := h
    have hdata : (operandStr (.address s)).data = '@' :: s.data := by
      simp [operandStr]
    unfold parseOperandText
    rw [hdata]
    dsimp only
    rw [if_neg (by decide)]
    rw [if_pos rfl]
    rw [if_pos ⟨hne, hall⟩]
  | stringLiteral s =>
    have hdata : (operandStr (.stringLiteral s)).data =
        '"' :: (s.data ++ ['"']) := by
      simp [operandStr]
    unfold parseOperandText
    rw [hdata]
    dsimp only
    rw [if_neg (by decide)]
    rw [if_neg (by decide)]
    rw [if_pos rfl]
    rw [scanStringAux_append_quote s.data h]
  | labelRef nm =>
    unfold roundTrippable at h
    dsimp only at h
    obtain ⟨c0, cs0, hcs⟩ : ∃ c0 cs0, nm.data = c0 :: cs0 := by
      rcases hd : nm.data with _ | ⟨c0, cs0⟩
      · rw [hd] at h; simp at h
      · exact ⟨c0, cs0, rfl⟩
    rw [hcs] at h
    dsimp only at h
    obtain ⟨hstart, hall⟩ := h
    have hne := isLabelStart_not_special c0 hstart
    have hdata : (operandStr (.labelRef nm)).data = c0 :: cs0 := by
      simpa [operandStr] using hcs
    unfold parseOperandText
    rw [hdata]
    dsimp only
    rw [if_neg (by simpa using hne.1)]
    rw [if_neg (by simpa using hne.2.1)]
    rw [if_neg (by simpa using hne.2.2)]
    rw [if_pos ⟨hstart, hall⟩]
    rfl

/-- Witness for C9's amended theorem at one operand of each
round-trippable kind, including a register-shaped label reference. -/
theorem c9_amended_witness :
    parseOperandText (operandStr (.immediate (-307))) = some (.immediate (-307)) ∧
    parseOperandText (operandStr (.address "ff")) = some (.address "ff") ∧
    parseOperandText (operandStr (.stringLiteral "ab")) = some (.stringLiteral "ab") ∧
    parseOperandText (operandStr (.labelRef "r5")) = some (.labelRef "r5") ∧
    parseOperandText (operandStr (.labelRef "loop")) = some (.labelRef "loop") :=
  ⟨c9_amended_round_trip (.immediate (-307)) (by unfold roundTrippable; trivial),
   c9_amended_round_trip (.address "ff") (by unfold roundTrippable; exact ⟨by decide, by decide⟩),
   c9_amended_round_trip (.stringLiteral "ab") (by unfold roundTrippable; decide),
   c9_amended_round_trip (.labelRef "r5") (by unfold roundTrippable; exact ⟨by decide, by decide⟩),
   c9_amended_round_trip (.labelRef "loop") (by unfold roundTrippable; exact ⟨by decide, by decide⟩)⟩

/-- C10 (confirmed): when DIV raises `"Division by zero"` (at least two
stack values, top equal to 0), both operands were already popped before
the check, so the error leaves the data stack two elements shorter; the
state is not restored. -/
theorem c10_div_zero_pops_operands (labels : List (String × Int)) (st : VMState)
    (a : Value) (rest : List Value)
    (h : st.data_stack = Value.int 0 :: a :: rest) :
    execute_instruction labels st ⟨"DIV", []⟩ =
      ({ st with data_stack := rest }, some "Division by zero") := by
  obtain ⟨ds, cs, mem, regs, pc, rn, err, steps, mu⟩ := st
  dsimp only at h
  subst h
  rfl

/-- Witness for C10 at a concrete state: stack `[0, 10]` (top first)
becomes `[]` with the division-by-zero error. -/
theorem c10_witness :
    ({ data_stack := [Value.int 0, Value.int 10] } : VMState).data_stack =
      Value.int 0 :: Value.int 10 :: [] ∧
    execute_instruction [] { data_stack := [Value.int 0, Value.int 10] } ⟨"DIV", []⟩ =
      ({ data_stack := [] }, some "Division by zero") :=
  ⟨rfl, c10_div_zero_pops_operands [] _ (Value.int 10) [] rfl⟩

end Sovereign

